import Mathlib

/-!
# Verification of the AEON state-persistence and host-bridging core

Shallow embedding of the three source files of the repository:

* `src/runtime/vh_preload.c`  — the guest-side shim: fd routing of the
  intercepted libc calls (`write`/`read`/`pread`/`close`) and the local
  `memmove` implementation.
* `src/runtime/vh_harness.hpp` — hypercall dispatcher: the value each
  installed handler writes to the guest result register, as a function of
  the host-primitive outcome.
* `src/runtime/checkpoint.hpp` — byte-level model of `save_checkpoint` and
  `load_checkpoint` over an explicit machine-state record.

Machine integers are modelled as `Nat` with explicit width bounds where
the code's behaviour depends on them; raw bytes are `Nat` values `< 256`.
-/

namespace AEON

/-! ## Guest shim: fd routing (vh_preload.c) -/

/-- Where an intercepted libc call ends up: either a raw Linux syscall
(passthrough) or a VectorHeart ecall number. -/
inductive Route where
  | rawSyscall (nr : Nat)
  | ecall (nr : Nat)
deriving DecidableEq, Repr

/-- Linux RISC-V syscall numbers used by the shim. -/
def SYS_close : Nat := 57
def SYS_read : Nat := 63
def SYS_write : Nat := 64
def SYS_pread64 : Nat := 67

/-- Routing of `write(fd, buf, count)` in vh_preload.c: fd 99 → ecall 708
(JSON channel), fd in [500,600) → ecall 802 (net write), fd > 2 → ecall
601 (OPFS write), otherwise the raw `SYS_write` syscall. -/
def write_route (fd : Int) : Route :=
  if fd = 99 then .ecall 708
  else if 500 ≤ fd ∧ fd < 600 then .ecall 802
  else if fd > 2 then .ecall 601
  else .rawSyscall SYS_write

/-- Routing of `read(fd, buf, count)`: fd in [500,600) → ecall 803,
fd > 2 → ecall 602, otherwise the raw `SYS_read` syscall. -/
def read_route (fd : Int) : Route :=
  if 500 ≤ fd ∧ fd < 600 then .ecall 803
  else if fd > 2 then .ecall 602
  else .rawSyscall SYS_read

/-- Routing of `pread(fd, buf, count, offset)`: fd > 2 → ecall 604,
otherwise the raw `SYS_pread64` syscall.  There is no special case for
the socket window or for fd 99. -/
def pread_route (fd : Int) : Route :=
  if fd > 2 then .ecall 604
  else .rawSyscall SYS_pread64

/-- Routing of `close(fd)`: fd > 2 → ecall 603, otherwise the raw
`SYS_close` syscall. -/
def close_route (fd : Int) : Route :=
  if fd > 2 then .ecall 603
  else .rawSyscall SYS_close

/-! ## Guest shim: local memmove (vh_preload.c)

`memmove(dest, src, n)` issues ecall 703 when `n > 1024`; otherwise it
copies byte-by-byte locally, forward when `dest < src`, backward
otherwise, and returns `dest`.  Guest memory is modelled as a total map
from addresses to bytes. -/

/-- Pointwise update of a memory map. -/
def memUpd (mem : Nat → Nat) (a v : Nat) : Nat → Nat :=
  fun x => if x = a then v else mem x

/-- Forward copy loop `for (i = 0; i < n; i++) d[i] = s[i]`, transcribed
with the remaining iteration count `k` explicit (the loop body runs for
`i, i+1, …, i+k-1`). -/
def copyFwd (d s : Nat) : Nat → Nat → (Nat → Nat) → (Nat → Nat)
  | _, 0, mem => mem
  | i, k+1, mem => copyFwd d s (i+1) k (memUpd mem (d+i) (mem (s+i)))

/-- Backward copy loop `for (i = n; i > 0; i--) d[i-1] = s[i-1]`:
with `k` iterations remaining the next write is at index `k-1`. -/
def copyBwd (d s : Nat) : Nat → (Nat → Nat) → (Nat → Nat)
  | 0, mem => mem
  | k+1, mem => copyBwd d s k (memUpd mem (d+k) (mem (s+k)))

/-- Result of the guest shim's `memmove`: either the hypercall path
(ecall 703 with the three arguments) or the local copy, with the
resulting memory and the returned pointer. -/
inductive MemmoveOut where
  | hypercall (nr dest src n : Nat)
  | localCopy (mem : Nat → Nat) (ret : Nat)

/-- `memmove` from vh_preload.c. -/
def memmove (mem : Nat → Nat) (dest src n : Nat) : MemmoveOut :=
  if n > 1024 then .hypercall 703 dest src n
  else if dest < src then .localCopy (copyFwd dest src 0 n mem) dest
  else .localCopy (copyBwd dest src n mem) dest

/-! ## Hypercall harness (vh_harness.hpp)

Each installed handler invokes at most one host primitive and writes one
scalar to the guest result register via `m.set_result(..)`.  The host
primitives are modelled by their returned scalar: for `js_opfs_io`,
`js_net_proxy`, `js_dns_resolve` and `js_compute_offload` a negative
value is the failure sentinel (the native stubs in vh_harness.hpp return
-38, and the JS implementations convert every error to a negative
errno-like value).  `js_gettime_ms` (the clock read behind ecall 704)
has no failure condition in the source.  Handlers are pure functions of
the primitive outcome — the model has no exception channel at all, which
is the "no-throw zone": a handler always completes by writing its result
scalar. -/

/-- Outcomes of the host primitives a handler may call. -/
structure PrimEnv where
  opfs_io : Int
  net_proxy : Int
  dns_resolve : Int
  compute_offload : Int
  gettime_ms : Int

/-- The ecall numbers with an installed handler in `setup_vh_harness`. -/
def installedEcalls : List Nat :=
  [600, 601, 602, 603, 604, 700, 703, 704, 705, 706, 708, 800, 801, 802, 803]

/-- The scalar each installed handler writes to the guest result
register, transcribed from `setup_vh_harness`.  `destAddr` is the first
guest argument of ecall 703 (returned unchanged); `sinValid` tells
whether the sockaddr translation of ecall 800 succeeded (on failure that
handler writes -14 without calling the primitive).  `none` means the
ecall number has no installed handler. -/
def resultRegister (env : PrimEnv) (sinValid : Bool) (destAddr : Nat) :
    Nat → Option Int
  | 600 => some env.opfs_io
  | 601 => some env.opfs_io
  | 602 => some env.opfs_io
  | 603 => some env.opfs_io
  | 604 => some env.opfs_io
  | 700 => some env.compute_offload
  | 703 => some (Int.ofNat destAddr)
  | 704 => some 0
  | 705 => some env.compute_offload
  | 706 => some env.compute_offload
  | 708 => some env.compute_offload
  | 800 => some (if sinValid then env.net_proxy else -14)
  | 801 => some env.dns_resolve
  | 802 => some env.net_proxy
  | 803 => some env.net_proxy
  | _ => none

/-- Which fallible host primitive a handler invokes, as the projection
reading that primitive's outcome from the environment.  Ecall 703's
primitive is `std::memmove` and 704's is `js_gettime_ms` (a clock read):
neither has a failure condition in the source, so no projection. -/
def falliblePrim : Nat → Option (PrimEnv → Int)
  | 600 => some PrimEnv.opfs_io
  | 601 => some PrimEnv.opfs_io
  | 602 => some PrimEnv.opfs_io
  | 603 => some PrimEnv.opfs_io
  | 604 => some PrimEnv.opfs_io
  | 700 => some PrimEnv.compute_offload
  | 705 => some PrimEnv.compute_offload
  | 706 => some PrimEnv.compute_offload
  | 708 => some PrimEnv.compute_offload
  | 800 => some PrimEnv.net_proxy
  | 801 => some PrimEnv.dns_resolve
  | 802 => some PrimEnv.net_proxy
  | 803 => some PrimEnv.net_proxy
  | _ => none

/-- The handler's host primitive failed: the primitive it calls is
fallible and returned a negative sentinel. -/
def PrimFailure (n : Nat) (env : PrimEnv) : Prop :=
  match falliblePrim n with
  | some p => p env < 0
  | none => False

/-! ## Checkpoint model (checkpoint.hpp)

Byte-level embedding of `save_checkpoint` / `load_checkpoint`.  A blob is
a `List Nat` of bytes; multi-byte scalars are little-endian (the memcpy
of native integers on a little-endian host).  The signed 32-bit fields
(`next_pid`, `next_epoll_fd`, epoll/eventfd ids) hold small nonnegative
values in every reachable state and are modelled as `Nat` with a `2^31`
bound.  The `Reader` throwing `"checkpoint: unexpected EOF"` is modelled
by `Option`/flags; `load_checkpoint` threads the machine state through
the phases exactly as the C++ mutates live state, so a failed load
returns the partially mutated state together with the error. -/

/-- `"FRISCYCK"`. -/
def MAGIC : List Nat := [70, 82, 73, 83, 67, 89, 67, 75]

def VERSION : Nat := 2

/-- 64 KiB sparse-scan window. -/
def CHUNK_SIZE : Nat := 65536

/-- `0xFFFFFFFFFFFFFFFF`. -/
def SENTINEL_ADDR : Nat := 2 ^ 64 - 1

/-- `sizeof(syscalls::g_sched)`: the scheduler block is saved and
restored as an opaque fixed-size run of raw bytes; its size is a link
-time constant of the C++ build, fixed here at 8. -/
def SCHED_SIZE : Nat := 8

/-- Little-endian encoding of `v` on `w` bytes (the `emit_val` memcpy). -/
def encodeLE : Nat → Nat → List Nat
  | 0, _ => []
  | w+1, v => (v % 256) :: encodeLE w (v / 256)

/-- Little-endian decoding (the `Reader::read` memcpy). -/
def decodeLE : List Nat → Nat
  | [] => 0
  | b :: bs => b % 256 + 256 * decodeLE bs

/-- `Reader::read_into`: take `n` bytes or fail (the thrown EOF). -/
def readBytes (n : Nat) (s : List Nat) : Option (List Nat × List Nat) :=
  if n ≤ s.length then some (s.take n, s.drop n) else none

/-- `Reader::read<T>` for a `w`-byte integer. -/
def readNat (w : Nat) (s : List Nat) : Option (Nat × List Nat) :=
  match readBytes w s with
  | none => none
  | some (bs, rest) => some (decodeLE bs, rest)

/-- Read `k` consecutive `w`-byte integers (the register/page loops). -/
def readVals (w : Nat) : Nat → List Nat → Option (List Nat × List Nat)
  | 0, s => some ([], s)
  | k+1, s =>
    match readNat w s with
    | none => none
    | some (v, s) =>
      match readVals w k s with
      | none => none
      | some (vs, s) => some (v :: vs, s)

/-- `syscalls::g_exec_ctx` (brk fields live in the same struct). -/
structure ExecContext where
  exec_base : Nat
  exec_rw_start : Nat
  exec_rw_end : Nat
  interp_base : Nat
  interp_rw_start : Nat
  interp_rw_end : Nat
  interp_entry : Nat
  original_stack_top : Nat
  heap_start : Nat
  heap_size : Nat
  brk_base : Nat
  brk_current : Nat
  brk_overridden : Bool
  dynamic : Bool
deriving DecidableEq, Repr

/-- One epoll interest: `{event mask, user data}`. -/
structure Interest where
  events : Nat
  data : Nat
deriving DecidableEq, Repr

/-- One epoll instance: its watched-fd interests.  The C++ maps are
modelled as association lists with unique keys; inserting a fresh key
appends, so the list order is the map's enumeration order. -/
structure EpollInstance where
  interests : List (Nat × Interest)
deriving DecidableEq, Repr

/-- `riscv::PageAttributes` (the three bits the checkpoint code uses). -/
structure PageAttr where
  read : Bool
  write : Bool
  exec : Bool
deriving DecidableEq, Repr

/-- Everything `save_checkpoint` captures and `load_checkpoint` rebuilds:
CPU state, memory-management pointer, exec context, emulated-kernel
state, page-permission table and the flat memory arena. -/
structure MachineState where
  pc : Nat
  fcsr : Nat
  iregs : List Nat
  fregs : List Nat
  mmap_address : Nat
  exec_ctx : ExecContext
  sched : List Nat
  next_pid : Nat
  next_epoll_fd : Nat
  epoll_instances : List (Nat × EpollInstance)
  eventfd_counters : List (Nat × Nat)
  pages : List (Nat × PageAttr)
  arena : List Nat
  waiting_for_stdin : Bool
deriving DecidableEq, Repr

def flagByte (b : Bool) : Nat := if b then 1 else 0

/-! ### save_checkpoint -/

/-- Header: magic, version, reserved flags. -/
def saveHeader : List Nat :=
  MAGIC ++ encodeLE 4 VERSION ++ encodeLE 4 0

/-- CPU block: pc, fcsr + pad, 32 integer and 32 FP registers. -/
def saveCpu (m : MachineState) : List Nat :=
  encodeLE 8 m.pc ++ encodeLE 4 m.fcsr ++ encodeLE 4 0 ++
  m.iregs.flatMap (encodeLE 8) ++ m.fregs.flatMap (encodeLE 8)

/-- Memory-management pointers and the exec-context block (two flag
bytes plus six bytes of padding at the end). -/
def saveMemExec (m : MachineState) : List Nat :=
  encodeLE 8 m.mmap_address ++
  encodeLE 8 m.exec_ctx.brk_base ++ encodeLE 8 m.exec_ctx.brk_current ++
  encodeLE 8 m.exec_ctx.exec_base ++ encodeLE 8 m.exec_ctx.exec_rw_start ++
  encodeLE 8 m.exec_ctx.exec_rw_end ++ encodeLE 8 m.exec_ctx.interp_base ++
  encodeLE 8 m.exec_ctx.interp_rw_start ++ encodeLE 8 m.exec_ctx.interp_rw_end ++
  encodeLE 8 m.exec_ctx.interp_entry ++ encodeLE 8 m.exec_ctx.original_stack_top ++
  encodeLE 8 m.exec_ctx.heap_start ++ encodeLE 8 m.exec_ctx.heap_size ++
  [flagByte m.exec_ctx.brk_overridden, flagByte m.exec_ctx.dynamic] ++
  List.replicate 6 0

/-- Raw scheduler block plus the two 32-bit counters. -/
def saveSched (m : MachineState) : List Nat :=
  m.sched ++ encodeLE 4 m.next_pid ++ encodeLE 4 m.next_epoll_fd

def saveInterest (q : Nat × Interest) : List Nat :=
  encodeLE 4 q.1 ++ encodeLE 4 q.2.events ++ encodeLE 8 q.2.data

def saveEpollInst (p : Nat × EpollInstance) : List Nat :=
  encodeLE 4 p.1 ++ encodeLE 4 p.2.interests.length ++
  p.2.interests.flatMap saveInterest

/-- Epoll section: count, then per instance its id and interests. -/
def saveEpoll (m : MachineState) : List Nat :=
  encodeLE 4 m.epoll_instances.length ++ m.epoll_instances.flatMap saveEpollInst

/-- Eventfd section: count, then (id, 64-bit counter) pairs. -/
def saveEventfd (m : MachineState) : List Nat :=
  encodeLE 4 m.eventfd_counters.length ++
  m.eventfd_counters.flatMap (fun p => encodeLE 4 p.1 ++ encodeLE 8 p.2)

/-- The page numbers with exec permission, in page-table order. -/
def execPageNumbers (m : MachineState) : List Nat :=
  (m.pages.filter (fun p => p.2.exec)).map (fun p => p.1)

/-- Executable-page section: 64-bit count, then the page numbers. -/
def saveExecPages (m : MachineState) : List Nat :=
  encodeLE 8 (execPageNumbers m).length ++
  (execPageNumbers m).flatMap (encodeLE 8)

/-- The full-window scan of `save_checkpoint` with `n` windows left,
starting at byte offset `o`: collect each non-zero 64 KiB window as an
(offset, bytes) record.  The C++ loop
`for (offset = 0; offset + CHUNK_SIZE <= arena_size; offset += CHUNK_SIZE)`
executes exactly `arena_size / CHUNK_SIZE` iterations, and its all-zero
test over 64-bit words holds iff every byte of the window is zero. -/
def fullChunks (arena : List Nat) (o : Nat) : Nat → List (Nat × List Nat)
  | 0 => []
  | n+1 =>
    (if ((arena.drop o).take CHUNK_SIZE).all (· == 0) then []
     else [(o, (arena.drop o).take CHUNK_SIZE)]) ++
    fullChunks arena (o + CHUNK_SIZE) n

/-- The trailing partial window, emitted when it exists and holds a
non-zero byte. -/
def tailChunk (arena : List Nat) : List (Nat × List Nat) :=
  let tail_offset := (arena.length / CHUNK_SIZE) * CHUNK_SIZE
  if tail_offset < arena.length ∧ ¬((arena.drop tail_offset).all (· == 0)) then
    [(tail_offset, arena.drop tail_offset)]
  else []

/-- All (offset, bytes) records `save_checkpoint` emits for the arena. -/
def chunkRecords (arena : List Nat) : List (Nat × List Nat) :=
  fullChunks arena 0 (arena.length / CHUNK_SIZE) ++ tailChunk arena

/-- `[addr:u64, len:u64, data…]`. -/
def serializeRecord (r : Nat × List Nat) : List Nat :=
  encodeLE 8 r.1 ++ encodeLE 8 r.2.length ++ r.2

/-- `[addr = 0xFFFFFFFFFFFFFFFF, len = 0]`. -/
def sentinelBytes : List Nat := encodeLE 8 SENTINEL_ADDR ++ encodeLE 8 0

/-- Sparse arena section: the chunk records, then the sentinel. -/
def saveArena (m : MachineState) : List Nat :=
  (chunkRecords m.arena).flatMap serializeRecord ++ sentinelBytes

/-- `save_checkpoint`: header, CPU, memory/exec context, scheduler,
epoll, eventfd, executable pages, sparse arena. -/
def save_checkpoint (m : MachineState) : List Nat :=
  saveHeader ++ saveCpu m ++ saveMemExec m ++ saveSched m ++
  saveEpoll m ++ saveEventfd m ++ saveExecPages m ++ saveArena m

/-! ### load_checkpoint -/

/-- The fatal load failures: bad magic, unsupported version, and the
`"checkpoint: unexpected EOF"` thrown by the `Reader`.
`outOfBoundsWrite` is not a thrown error of the source: it marks the
point where the chunk loop's wrapping 64-bit bound check has passed for
a record whose true `guest_addr + len` lies beyond the arena, so
`read_into(arena + guest_addr, len)` writes host memory out of bounds —
undefined behaviour that no machine state of the model can represent,
so the model stops there. -/
inductive LoadErr where
  | badMagic
  | badVersion
  | eof
  | outOfBoundsWrite
deriving DecidableEq, Repr

/-- Header validation: runs before anything else and touches no state. -/
def loadHeader (s : List Nat) : Except LoadErr (List Nat) :=
  match readBytes 8 s with
  | none => .error .eof
  | some (magic, s) =>
    if magic ≠ MAGIC then .error .badMagic
    else
      match readNat 4 s with
      | none => .error .eof
      | some (version, s) =>
        if version ≠ VERSION then .error .badVersion
        else
          match readNat 4 s with
          | none => .error .eof
          | some (_, s) => .ok s

/-- The fixed-size fields `load_checkpoint` parses into stack locals
before touching any of them (applied only at the end of the load). -/
structure StagedFixed where
  pc : Nat
  fcsr : Nat
  iregs : List Nat
  fregs : List Nat
  mmap_address : Nat
  brk_base : Nat
  brk_current : Nat
  exec_base : Nat
  exec_rw_start : Nat
  exec_rw_end : Nat
  interp_base : Nat
  interp_rw_start : Nat
  interp_rw_end : Nat
  interp_entry : Nat
  original_stack_top : Nat
  heap_start : Nat
  heap_size : Nat
  brk_overridden : Nat
  dynamic : Nat
deriving DecidableEq, Repr

/-- Parse CPU, memory-management and exec-context fields (pure: the C++
stages these in locals and mutates nothing while parsing them).  The 13
consecutive u64 reads `mmap_addr … heap_size` are grouped through
`readVals 8 13` — byte-for-byte the same sequential reads; the final
wildcard branch is unreachable since `readVals 8 13` always yields 13
values. -/
def loadFixed (s : List Nat) : Option (StagedFixed × List Nat) :=
  match readNat 8 s with
  | none => none
  | some (pc, s) =>
  match readNat 4 s with
  | none => none
  | some (fcsr, s) =>
  match readNat 4 s with
  | none => none
  | some (_, s) =>
  match readVals 8 32 s with
  | none => none
  | some (iregs, s) =>
  match readVals 8 32 s with
  | none => none
  | some (fregs, s) =>
  match readVals 8 13 s with
  | none => none
  | some (mmvals, s) =>
  match readNat 1 s with
  | none => none
  | some (brk_overridden, s) =>
  match readNat 1 s with
  | none => none
  | some (dynamic, s) =>
  match readBytes 6 s with
  | none => none
  | some (_, s) =>
  match mmvals with
  | [mmap_address, brk_base, brk_current, exec_base, exec_rw_start,
     exec_rw_end, interp_base, interp_rw_start, interp_rw_end, interp_entry,
     original_stack_top, heap_start, heap_size] =>
    some (⟨pc, fcsr, iregs, fregs, mmap_address, brk_base, brk_current,
      exec_base, exec_rw_start, exec_rw_end, interp_base, interp_rw_start,
      interp_rw_end, interp_entry, original_stack_top, heap_start, heap_size,
      brk_overridden, dynamic⟩, s)
  | _ => none

/-- Scheduler phase: `read_into(&g_sched, …)` and the two counters write
the live globals directly as they parse. -/
def loadSched (s : List Nat) (m : MachineState) :
    MachineState × Option (List Nat) :=
  match readBytes SCHED_SIZE s with
  | none => (m, none)
  | some (sb, s) =>
    let m := { m with sched := sb }
    match readNat 4 s with
    | none => (m, none)
    | some (pid, s) =>
      let m := { m with next_pid := pid }
      match readNat 4 s with
      | none => (m, none)
      | some (ef, s) => ({ m with next_epoll_fd := ef }, some s)

/-- `std::map::operator[]` on a fresh key: create-or-get the instance. -/
def getOrCreate (l : List (Nat × EpollInstance)) (k : Nat) :
    List (Nat × EpollInstance) :=
  match l.lookup k with
  | some _ => l
  | none => l ++ [(k, ⟨[]⟩)]

/-- `inst.interests[fd] = {events, data}`: update-or-append. -/
def interestInsert (ints : List (Nat × Interest)) (fd : Nat) (it : Interest) :
    List (Nat × Interest) :=
  match ints.lookup fd with
  | some _ => ints.map (fun q => if q.1 = fd then (fd, it) else q)
  | none => ints ++ [(fd, it)]

/-- Add one interest to instance `k` of the live epoll table. -/
def instAddInterest (l : List (Nat × EpollInstance)) (k fd : Nat)
    (it : Interest) : List (Nat × EpollInstance) :=
  l.map (fun p => if p.1 = k then (k, ⟨interestInsert p.2.interests fd it⟩) else p)

/-- Inner epoll loop: read `k` interest entries of instance `epfd`,
inserting each into the live table as soon as its three fields are
read. -/
def loadInterests (epfd : Nat) :
    Nat → List Nat → MachineState → MachineState × Option (List Nat)
  | 0, s, m => (m, some s)
  | k+1, s, m =>
    match readNat 4 s with
    | none => (m, none)
    | some (fd, s) =>
      match readNat 4 s with
      | none => (m, none)
      | some (ev, s) =>
        match readNat 8 s with
        | none => (m, none)
        | some (d, s) =>
          loadInterests epfd k s
            { m with epoll_instances :=
                instAddInterest m.epoll_instances epfd fd ⟨ev, d⟩ }

/-- Outer epoll loop: per instance, read its id and interest count,
create the instance in the live table, then its interests. -/
def loadEpollInsts :
    Nat → List Nat → MachineState → MachineState × Option (List Nat)
  | 0, s, m => (m, some s)
  | n+1, s, m =>
    match readNat 4 s with
    | none => (m, none)
    | some (epfd, s) =>
      match readNat 4 s with
      | none => (m, none)
      | some (k, s) =>
        let m := { m with epoll_instances := getOrCreate m.epoll_instances epfd }
        match loadInterests epfd k s m with
        | (m, none) => (m, none)
        | (m, some s) => loadEpollInsts n s m

/-- Epoll phase: read the count, clear the live table, refill it. -/
def loadEpoll (s : List Nat) (m : MachineState) :
    MachineState × Option (List Nat) :=
  match readNat 4 s with
  | none => (m, none)
  | some (n, s) => loadEpollInsts n s { m with epoll_instances := [] }

/-- `g_eventfd_counters[fd] = counter`: update-or-append. -/
def mapInsert (l : List (Nat × Nat)) (k v : Nat) : List (Nat × Nat) :=
  match l.lookup k with
  | some _ => l.map (fun q => if q.1 = k then (k, v) else q)
  | none => l ++ [(k, v)]

def loadEventfdEntries :
    Nat → List Nat → MachineState → MachineState × Option (List Nat)
  | 0, s, m => (m, some s)
  | n+1, s, m =>
    match readNat 4 s with
    | none => (m, none)
    | some (fd, s) =>
      match readNat 8 s with
      | none => (m, none)
      | some (c, s) =>
        loadEventfdEntries n s
          { m with eventfd_counters := mapInsert m.eventfd_counters fd c }

/-- Eventfd phase: read the count, clear the live table, refill it. -/
def loadEventfd (s : List Nat) (m : MachineState) :
    MachineState × Option (List Nat) :=
  match readNat 4 s with
  | none => (m, none)
  | some (n, s) => loadEventfdEntries n s { m with eventfd_counters := [] }

/-- `read_into(arena + addr, len)` on the zeroed arena. -/
def writeBytes (arena : List Nat) (addr : Nat) (payload : List Nat) :
    List Nat :=
  arena.take addr ++ payload ++ arena.drop (addr + payload.length)

/-- How the arena-chunk loop ends: `ok` (sentinel reached, or the stream
ran out at a record boundary and the `remaining() >= 16` guard exited
silently), `eofThrow` (`read_into` would throw EOF inside a record
payload), or `oobWrite` (the source reaches
`read_into(arena + guest_addr, len)` for a record whose true
`guest_addr + len` exceeds the arena size although its wrapping uint64
bound check passed: the memcpy writes out of bounds — undefined
behaviour, at which point the model stops). -/
inductive ArenaLoopOutcome where
  | ok
  | eofThrow
  | oobWrite
deriving DecidableEq, Repr

/-- The arena-chunk loop of `load_checkpoint`.  Each iteration of the C++
`while (r.remaining() >= 16)` loop consumes at least the 16 record-header
bytes, so `fuel := s.length` bounds the iteration count and the `fuel = 0`
case coincides with the loop-exit condition `remaining < 16` (the loop
exits silently when the stream runs out at a record boundary).  Returns
the arena, the unread rest of the stream, and the loop outcome.  The
bound test `guest_addr + len > arena_size` is computed by the source in
uint64 arithmetic, so the sum wraps modulo `2^64`; a record failing that
wrapping test is skipped without touching the arena (its payload is
consumed only when fully present); a record whose address equals the
sentinel terminates the loop.  When the wrapping test passes, the source
copies unconditionally: the model performs the write when the true
`addr + len` fits the arena, and otherwise stops with
`ArenaLoopOutcome.oobWrite`, since the source's out-of-bounds memcpy is
undefined behaviour. -/
def loadArenaLoopF : Nat → List Nat → List Nat → List Nat × List Nat × ArenaLoopOutcome
  | 0, s, arena => (arena, s, .ok)
  | fuel+1, s, arena =>
    if s.length < 16 then (arena, s, .ok)
    else
      let addr := decodeLE (s.take 8)
      let len := decodeLE ((s.drop 8).take 8)
      let s' := s.drop 16
      if addr = SENTINEL_ADDR then (arena, s', .ok)
      else if (addr + len) % 2 ^ 64 > arena.length then
        if len ≤ s'.length then loadArenaLoopF fuel (s'.drop len) arena
        else loadArenaLoopF fuel s' arena
      else
        if s'.length < len then (arena, s', .eofThrow)
        else if addr + len ≤ arena.length then
          loadArenaLoopF fuel (s'.drop len) (writeBytes arena addr (s'.take len))
        else (arena, s', .oobWrite)

def loadArenaLoop (s arena : List Nat) : List Nat × List Nat × ArenaLoopOutcome :=
  loadArenaLoopF s.length s arena

/-- `machine.memory.set_pageno_attr(pageno, exec_attr)` with
`exec_attr = {read, ¬write, exec}`: update the page's attributes,
creating the page entry if absent. -/
def applyExecAttr (pages : List (Nat × PageAttr)) (pn : Nat) :
    List (Nat × PageAttr) :=
  match pages.lookup pn with
  | some _ => pages.map (fun p => if p.1 = pn then (pn, ⟨true, false, true⟩) else p)
  | none => pages ++ [(pn, ⟨true, false, true⟩)]

/-- `load_checkpoint`.  Phases in source order: header validation; fixed
fields staged in locals; scheduler/epoll/eventfd written live while
parsing; executable-page list staged; decoder-cache eviction (no
observable field here); arena zeroed then refilled by the chunk loop;
exec-page permissions reapplied; staged CPU/memory/exec-context values
applied; the stdin-wait resume flag set.  On error the state mutated so
far is returned with the error. -/
def load_checkpoint (blob : List Nat) (m : MachineState) :
    MachineState × Option LoadErr :=
  match loadHeader blob with
  | .error e => (m, some e)
  | .ok s =>
    match loadFixed s with
    | none => (m, some .eof)
    | some (fx, s) =>
      match loadSched s m with
      | (m, none) => (m, some .eof)
      | (m, some s) =>
        match loadEpoll s m with
        | (m, none) => (m, some .eof)
        | (m, some s) =>
          match loadEventfd s m with
          | (m, none) => (m, some .eof)
          | (m, some s) =>
            match readNat 8 s with
            | none => (m, some .eof)
            | some (npages, s) =>
              match readVals 8 npages s with
              | none => (m, some .eof)
              | some (exec_pages, s) =>
                match loadArenaLoop s (List.replicate m.arena.length 0) with
                | (arena1, _, outcome) =>
                  let m := { m with arena := arena1 }
                  match outcome with
                  | .ok =>
                    let m := { m with pages := exec_pages.foldl applyExecAttr m.pages }
                    ({ m with
                        iregs := fx.iregs
                        fregs := fx.fregs
                        fcsr := fx.fcsr
                        pc := fx.pc
                        mmap_address := fx.mmap_address
                        exec_ctx := ⟨fx.exec_base, fx.exec_rw_start,
                          fx.exec_rw_end, fx.interp_base, fx.interp_rw_start,
                          fx.interp_rw_end, fx.interp_entry,
                          fx.original_stack_top, fx.heap_start, fx.heap_size,
                          fx.brk_base, fx.brk_current,
                          fx.brk_overridden != 0, fx.dynamic != 0⟩
                        waiting_for_stdin := true }, none)
                  | .eofThrow => (m, some .eof)
                  | .oobWrite => (m, some .outOfBoundsWrite)

/-- The staged fixed fields that `save_checkpoint` emits for `m`
(what `loadFixed` recovers on a round trip). -/
def stagedOf (m : MachineState) : StagedFixed :=
  ⟨m.pc, m.fcsr, m.iregs, m.fregs, m.mmap_address,
   m.exec_ctx.brk_base, m.exec_ctx.brk_current, m.exec_ctx.exec_base,
   m.exec_ctx.exec_rw_start, m.exec_ctx.exec_rw_end, m.exec_ctx.interp_base,
   m.exec_ctx.interp_rw_start, m.exec_ctx.interp_rw_end,
   m.exec_ctx.interp_entry, m.exec_ctx.original_stack_top,
   m.exec_ctx.heap_start, m.exec_ctx.heap_size,
   flagByte m.exec_ctx.brk_overridden, flagByte m.exec_ctx.dynamic⟩

/-- Apply (offset, bytes) records to an arena in order — the cumulative
effect of the chunk loop's in-range `read_into` writes. -/
def applyRecords (arena : List Nat) (rs : List (Nat × List Nat)) : List Nat :=
  rs.foldl (fun a r => writeBytes a r.1 r.2) arena

/-- The chunk loop's bound test, as the source computes it: the uint64
sum `guest_addr + len` wraps modulo `2^64` before the comparison with
the arena size. -/
def recInRange (alen : Nat) (r : Nat × List Nat) : Bool :=
  decide ((r.1 + r.2.length) % 2 ^ 64 ≤ alen)

/-- A record whose serialized header parses back to itself and whose
bound check does not overflow: its offset is representable and distinct
from the sentinel, its length representable, and the uint64 sum
`offset + length` the bound check computes does not wrap. -/
def RecordWF (r : Nat × List Nat) : Prop :=
  r.1 < SENTINEL_ADDR ∧ r.2.length < 2 ^ 64 ∧ r.1 + r.2.length < 2 ^ 64

/-- Page `n` of `m` holds exec permission. -/
def isExecPage (m : MachineState) (n : Nat) : Prop :=
  ∃ a, m.pages.lookup n = some a ∧ a.exec = true

/-! ### Concrete states and blobs for witnesses and counterexamples -/

/-- A small concrete reachable state. -/
def cS : MachineState :=
  { pc := 4096, fcsr := 7,
    iregs := List.replicate 32 5, fregs := List.replicate 32 9,
    mmap_address := 77,
    exec_ctx := ⟨1, 2, 3, 4, 5, 6, 7, 8, 9, 10, 11, 12, true, false⟩,
    sched := [1, 2, 3, 4, 5, 6, 7, 8], next_pid := 42, next_epoll_fd := 43,
    epoll_instances := [(3, ⟨[(5, ⟨17, 99⟩), (6, ⟨18, 100⟩)]⟩), (4, ⟨[]⟩)],
    eventfd_counters := [(9, 1234)],
    pages := [(100, ⟨true, true, true⟩), (101, ⟨true, true, false⟩)],
    arena := [0, 1, 2, 0],
    waiting_for_stdin := false }

/-- A small concrete load target with a different live state. -/
def cT : MachineState :=
  { pc := 0, fcsr := 0,
    iregs := List.replicate 32 0, fregs := List.replicate 32 0,
    mmap_address := 0, exec_ctx := ⟨0, 0, 0, 0, 0, 0, 0, 0, 0, 0, 0, 0, false, false⟩,
    sched := [0, 0, 0, 0, 0, 0, 0, 0], next_pid := 0, next_epoll_fd := 0,
    epoll_instances := [], eventfd_counters := [],
    pages := [(55, ⟨true, true, false⟩)],
    arena := [9, 9, 9, 9],
    waiting_for_stdin := false }

/-- A checkpoint of `cS` truncated exactly at the start of the arena
chunk stream: every field section is complete, but neither a chunk
record nor the sentinel follows. -/
def cTruncBlob : List Nat :=
  saveHeader ++ saveCpu cS ++ saveMemExec cS ++ saveSched cS ++
  saveEpoll cS ++ saveEventfd cS ++ saveExecPages cS

/-- A checkpoint of `cS` truncated in the middle of the scheduler
section: the scheduler block and the next-pid counter are present but
the stream ends inside the next-epoll-fd counter. -/
def cSchedTruncBlob : List Nat :=
  saveHeader ++ saveCpu cS ++ saveMemExec cS ++ cS.sched ++
  encodeLE 4 cS.next_pid ++ [0, 0]

/-! ### Well-formed (reachable) machine states -/

/-- Unique keys of an association list. -/
def KeysNodup {β : Type} (l : List (Nat × β)) : Prop :=
  (l.map (fun p => p.1)).Nodup

def ExecCtxWF (c : ExecContext) : Prop :=
  c.exec_base < 2 ^ 64 ∧ c.exec_rw_start < 2 ^ 64 ∧ c.exec_rw_end < 2 ^ 64 ∧
  c.interp_base < 2 ^ 64 ∧ c.interp_rw_start < 2 ^ 64 ∧
  c.interp_rw_end < 2 ^ 64 ∧ c.interp_entry < 2 ^ 64 ∧
  c.original_stack_top < 2 ^ 64 ∧ c.heap_start < 2 ^ 64 ∧
  c.heap_size < 2 ^ 64 ∧ c.brk_base < 2 ^ 64 ∧ c.brk_current < 2 ^ 64

def EpollWF (l : List (Nat × EpollInstance)) : Prop :=
  l.length < 2 ^ 32 ∧ KeysNodup l ∧
  ∀ p ∈ l, p.1 < 2 ^ 31 ∧ p.2.interests.length < 2 ^ 32 ∧
    KeysNodup p.2.interests ∧
    ∀ q ∈ p.2.interests, q.1 < 2 ^ 31 ∧ q.2.events < 2 ^ 32 ∧ q.2.data < 2 ^ 64

def EventfdWF (l : List (Nat × Nat)) : Prop :=
  l.length < 2 ^ 32 ∧ KeysNodup l ∧ ∀ p ∈ l, p.1 < 2 ^ 31 ∧ p.2 < 2 ^ 64

def PagesWF (l : List (Nat × PageAttr)) : Prop :=
  l.length < 2 ^ 64 ∧ KeysNodup l ∧ ∀ p ∈ l, p.1 < 2 ^ 64

/-- A reachable quiescent machine state: every captured scalar fits its
serialized width, the descriptor maps have unique ids, and the arena is
small enough that all chunk offsets stay below the sentinel address. -/
def WF (m : MachineState) : Prop :=
  m.pc < 2 ^ 64 ∧ m.fcsr < 2 ^ 32 ∧
  m.iregs.length = 32 ∧ (∀ v ∈ m.iregs, v < 2 ^ 64) ∧
  m.fregs.length = 32 ∧ (∀ v ∈ m.fregs, v < 2 ^ 64) ∧
  m.mmap_address < 2 ^ 64 ∧ ExecCtxWF m.exec_ctx ∧
  m.sched.length = SCHED_SIZE ∧
  m.next_pid < 2 ^ 31 ∧ m.next_epoll_fd < 2 ^ 31 ∧
  EpollWF m.epoll_instances ∧ EventfdWF m.eventfd_counters ∧
  PagesWF m.pages ∧
  m.arena.length + CHUNK_SIZE < 2 ^ 64

/-! ### Byte-codec lemmas -/

theorem encodeLE_length (w v : Nat) : (encodeLE w v).length = w := by
  induction w generalizing v with
  | zero => rfl
  | succ w ih => simp [encodeLE, ih]

theorem decodeLE_encodeLE (w v : Nat) (h : v < 256 ^ w) :
    decodeLE (encodeLE w v) = v := by
  induction w generalizing v with
  | zero => simp at h; simp [encodeLE, decodeLE, h]
  | succ w ih =>
    have hv : v / 256 < 256 ^ w := by
      rw [Nat.div_lt_iff_lt_mul (by omega)]
      calc v < 256 ^ (w+1) := h
      _ = 256 ^ w * 256 := by ring
    simp [encodeLE, decodeLE, ih _ hv]
    omega

theorem readBytes_append (l rest : List Nat) :
    readBytes l.length (l ++ rest) = some (l, rest) := by
  simp [readBytes, List.take_left, List.drop_left]

theorem readNat_append (w v : Nat) (rest : List Nat) (h : v < 256 ^ w) :
    readNat w (encodeLE w v ++ rest) = some (v, rest) := by
  have hb := readBytes_append (encodeLE w v) rest
  rw [encodeLE_length] at hb
  simp [readNat, hb, decodeLE_encodeLE w v h]

theorem readNat_one (b : Nat) (rest : List Nat) (h : b < 256) :
    readNat 1 (b :: rest) = some (b, rest) := by
  simp [readNat, readBytes, decodeLE, Nat.mod_eq_of_lt h]

theorem flagByte_lt (b : Bool) : flagByte b < 256 := by
  cases b <;> decide

theorem flagByte_bne (b : Bool) : (flagByte b != 0) = b := by
  cases b <;> rfl

theorem readVals_append (w : Nat) (l rest : List Nat)
    (h : ∀ v ∈ l, v < 256 ^ w) :
    readVals w l.length (l.flatMap (encodeLE w) ++ rest) = some (l, rest) := by
  induction l generalizing rest with
  | nil => simp [readVals]
  | cons v vs ih =>
    simp [readVals, List.append_assoc,
          readNat_append w v _ (h v (by simp)),
          ih _ (fun x hx => h x (by simp [hx]))]

/-! ### Section round-trip lemmas -/

theorem loadHeader_save (rest : List Nat) :
    loadHeader (saveHeader ++ rest) = .ok rest := by
  have h8 : readBytes 8 (MAGIC ++ (encodeLE 4 VERSION ++ (encodeLE 4 0 ++ rest)))
      = some (MAGIC, encodeLE 4 VERSION ++ (encodeLE 4 0 ++ rest)) := by
    have := readBytes_append MAGIC (encodeLE 4 VERSION ++ (encodeLE 4 0 ++ rest))
    simpa [MAGIC] using this
  simp [saveHeader, loadHeader, List.append_assoc, h8,
        readNat_append 4 VERSION _ (by norm_num [VERSION]),
        readNat_append 4 0 _ (by norm_num)]

theorem loadFixed_save (m : MachineState) (rest : List Nat)
    (h1 : m.pc < 2 ^ 64) (h2 : m.fcsr < 2 ^ 32)
    (h3 : m.iregs.length = 32) (h4 : ∀ v ∈ m.iregs, v < 2 ^ 64)
    (h5 : m.fregs.length = 32) (h6 : ∀ v ∈ m.fregs, v < 2 ^ 64)
    (h7 : m.mmap_address < 2 ^ 64) (h8 : ExecCtxWF m.exec_ctx) :
    loadFixed (saveCpu m ++ (saveMemExec m ++ rest)) = some (stagedOf m, rest) := by
  obtain ⟨e1, e2, e3, e4, e5, e6, e7, e8, e9, e10, e11, e12⟩ := h8
  have hpc : ∀ r, readNat 8 (encodeLE 8 m.pc ++ r) = some (m.pc, r) :=
    fun r => readNat_append 8 m.pc r (by norm_num; omega)
  have hcsr : ∀ r, readNat 4 (encodeLE 4 m.fcsr ++ r) = some (m.fcsr, r) :=
    fun r => readNat_append 4 m.fcsr r (by norm_num; omega)
  have hpad4 : ∀ r, readNat 4 (encodeLE 4 0 ++ r) = some (0, r) :=
    fun r => readNat_append 4 0 r (by norm_num)
  have hir : ∀ r, readVals 8 32 (m.iregs.flatMap (encodeLE 8) ++ r) = some (m.iregs, r) := by
    intro r
    have := readVals_append 8 m.iregs r (by norm_num; exact fun v hv => h4 v hv)
    rwa [h3] at this
  have hfr : ∀ r, readVals 8 32 (m.fregs.flatMap (encodeLE 8) ++ r) = some (m.fregs, r) := by
    intro r
    have := readVals_append 8 m.fregs r (by norm_num; exact fun v hv => h6 v hv)
    rwa [h5] at this
  have hmm : ∀ r, readVals 8 13 (encodeLE 8 m.mmap_address ++
      (encodeLE 8 m.exec_ctx.brk_base ++ (encodeLE 8 m.exec_ctx.brk_current ++
      (encodeLE 8 m.exec_ctx.exec_base ++ (encodeLE 8 m.exec_ctx.exec_rw_start ++
      (encodeLE 8 m.exec_ctx.exec_rw_end ++ (encodeLE 8 m.exec_ctx.interp_base ++
      (encodeLE 8 m.exec_ctx.interp_rw_start ++ (encodeLE 8 m.exec_ctx.interp_rw_end ++
      (encodeLE 8 m.exec_ctx.interp_entry ++ (encodeLE 8 m.exec_ctx.original_stack_top ++
      (encodeLE 8 m.exec_ctx.heap_start ++ (encodeLE 8 m.exec_ctx.heap_size ++ r)))))))))))))
      = some ([m.mmap_address, m.exec_ctx.brk_base, m.exec_ctx.brk_current,
          m.exec_ctx.exec_base, m.exec_ctx.exec_rw_start, m.exec_ctx.exec_rw_end,
          m.exec_ctx.interp_base, m.exec_ctx.interp_rw_start, m.exec_ctx.interp_rw_end,
          m.exec_ctx.interp_entry, m.exec_ctx.original_stack_top,
          m.exec_ctx.heap_start, m.exec_ctx.heap_size], r) := by
    intro r
    have := readVals_append 8
      [m.mmap_address, m.exec_ctx.brk_base, m.exec_ctx.brk_current,
        m.exec_ctx.exec_base, m.exec_ctx.exec_rw_start, m.exec_ctx.exec_rw_end,
        m.exec_ctx.interp_base, m.exec_ctx.interp_rw_start, m.exec_ctx.interp_rw_end,
        m.exec_ctx.interp_entry, m.exec_ctx.original_stack_top,
        m.exec_ctx.heap_start, m.exec_ctx.heap_size] r
      (by simp; omega)
    simpa [List.append_assoc] using this
  have hf1 : ∀ r, readNat 1 (flagByte m.exec_ctx.brk_overridden :: r)
      = some (flagByte m.exec_ctx.brk_overridden, r) :=
    fun r => readNat_one _ r (flagByte_lt _)
  have hf2 : ∀ r, readNat 1 (flagByte m.exec_ctx.dynamic :: r)
      = some (flagByte m.exec_ctx.dynamic, r) :=
    fun r => readNat_one _ r (flagByte_lt _)
  have hpad6 : ∀ r : List Nat, readBytes 6 (0 :: 0 :: 0 :: 0 :: 0 :: 0 :: r)
      = some ([0, 0, 0, 0, 0, 0], r) := by
    intro r
    have := readBytes_append [0, 0, 0, 0, 0, 0] r
    simpa using this
  simp [saveCpu, saveMemExec, loadFixed, List.append_assoc,
        hpc, hcsr, hpad4, hir, hfr, hmm, hf1, hf2, hpad6, stagedOf]

theorem loadSched_save (m t : MachineState) (rest : List Nat)
    (hs : m.sched.length = SCHED_SIZE)
    (hp : m.next_pid < 2 ^ 31) (he : m.next_epoll_fd < 2 ^ 31) :
    loadSched (saveSched m ++ rest) t
      = ({ t with
            sched := m.sched
            next_pid := m.next_pid
            next_epoll_fd := m.next_epoll_fd }, some rest) := by
  have hb : readBytes SCHED_SIZE
        (m.sched ++ (encodeLE 4 m.next_pid ++ (encodeLE 4 m.next_epoll_fd ++ rest)))
      = some (m.sched, encodeLE 4 m.next_pid ++ (encodeLE 4 m.next_epoll_fd ++ rest)) := by
    have := readBytes_append m.sched
      (encodeLE 4 m.next_pid ++ (encodeLE 4 m.next_epoll_fd ++ rest))
    rwa [hs] at this
  simp [saveSched, loadSched, List.append_assoc, hb,
        readNat_append 4 m.next_pid _ (by norm_num; omega),
        readNat_append 4 m.next_epoll_fd _ (by norm_num; omega)]

theorem lookup_eq_none_of_not_mem {β : Type} (l : List (Nat × β)) (k : Nat)
    (h : k ∉ l.map (fun p => p.1)) : l.lookup k = none := by
  induction l with
  | nil => rfl
  | cons p t ih =>
    cases p with
    | mk a b =>
      simp at h
      have hk : (k == a) = false := by simp [h.1]
      simp only [List.lookup, hk]
      exact ih (by simpa using h.2)

theorem getOrCreate_fresh (acc : List (Nat × EpollInstance)) (k : Nat)
    (h : k ∉ acc.map (fun p => p.1)) :
    getOrCreate acc k = acc ++ [(k, ⟨[]⟩)] := by
  simp [getOrCreate, lookup_eq_none_of_not_mem acc k h]

theorem interestInsert_fresh (done : List (Nat × Interest)) (fd : Nat)
    (it : Interest) (h : fd ∉ done.map (fun q => q.1)) :
    interestInsert done fd it = done ++ [(fd, it)] := by
  simp [interestInsert, lookup_eq_none_of_not_mem done fd h]

theorem instAddInterest_append (acc : List (Nat × EpollInstance))
    (epfd fd : Nat) (ints : List (Nat × Interest)) (it : Interest)
    (h : epfd ∉ acc.map (fun p => p.1)) :
    instAddInterest (acc ++ [(epfd, ⟨ints⟩)]) epfd fd it
      = acc ++ [(epfd, ⟨interestInsert ints fd it⟩)] := by
  simp only [instAddInterest, List.map_append]
  congr 1
  · conv_rhs => rw [← List.map_id acc]
    apply List.map_congr_left
    intro p hp
    have hne : p.1 ≠ epfd := by
      intro hk
      exact h (by simp only [List.mem_map]; exact ⟨p, hp, hk⟩)
    simp [hne]
  · simp

theorem loadInterests_save (epfd : Nat) (ints : List (Nat × Interest)) :
    ∀ (done : List (Nat × Interest)) (acc : List (Nat × EpollInstance))
      (t : MachineState) (rest : List Nat),
    ((done ++ ints).map (fun q => q.1)).Nodup →
    epfd ∉ acc.map (fun p => p.1) →
    (∀ q ∈ ints, q.1 < 2 ^ 31 ∧ q.2.events < 2 ^ 32 ∧ q.2.data < 2 ^ 64) →
    loadInterests epfd ints.length (ints.flatMap saveInterest ++ rest)
        { t with epoll_instances := acc ++ [(epfd, ⟨done⟩)] }
      = ({ t with epoll_instances := acc ++ [(epfd, ⟨done ++ ints⟩)] }, some rest) := by
  induction ints with
  | nil => intro done acc t rest _ _ _; simp [loadInterests]
  | cons q tl ih =>
    obtain ⟨fd, ev, d⟩ := q
    intro done acc t rest hnd hacc hb
    have h1 : fd < 2 ^ 31 := (hb (fd, ⟨ev, d⟩) (by simp)).1
    have h2 : ev < 2 ^ 32 := (hb (fd, ⟨ev, d⟩) (by simp)).2.1
    have h3 : d < 2 ^ 64 := (hb (fd, ⟨ev, d⟩) (by simp)).2.2
    have htl : ∀ x ∈ tl, x.1 < 2 ^ 31 ∧ x.2.events < 2 ^ 32 ∧ x.2.data < 2 ^ 64 :=
      fun x hx => hb x (List.mem_cons_of_mem _ hx)
    have hfd : fd ∉ done.map (fun r => r.1) := by
      intro hmem
      have hsplit := List.nodup_append.mp (by simpa using hnd)
      exact hsplit.2.2 hmem (by simp)
    have rfd : ∀ r, readNat 4 (encodeLE 4 fd ++ r) = some (fd, r) :=
      fun r => readNat_append 4 fd r (by norm_num; omega)
    have rev : ∀ r, readNat 4 (encodeLE 4 ev ++ r) = some (ev, r) :=
      fun r => readNat_append 4 ev r (by norm_num; omega)
    have rd : ∀ r, readNat 8 (encodeLE 8 d ++ r) = some (d, r) :=
      fun r => readNat_append 8 d r (by norm_num; omega)
    simp only [List.flatMap_cons, saveInterest, List.append_assoc,
      List.length_cons, loadInterests, rfd, rev, rd]
    rw [instAddInterest_append acc epfd fd done ⟨ev, d⟩ hacc,
        interestInsert_fresh done fd ⟨ev, d⟩ hfd]
    have := ih (done ++ [(fd, ⟨ev, d⟩)]) acc t rest
      (by simpa using hnd) hacc htl
    simpa using this



theorem loadEpollInsts_save (insts : List (Nat × EpollInstance)) :
    ∀ (acc : List (Nat × EpollInstance)) (t : MachineState) (rest : List Nat),
    ((acc ++ insts).map (fun p => p.1)).Nodup →
    (∀ p ∈ insts, p.1 < 2 ^ 31 ∧ p.2.interests.length < 2 ^ 32 ∧
      (p.2.interests.map (fun q => q.1)).Nodup ∧
      ∀ q ∈ p.2.interests, q.1 < 2 ^ 31 ∧ q.2.events < 2 ^ 32 ∧ q.2.data < 2 ^ 64) →
    loadEpollInsts insts.length (insts.flatMap saveEpollInst ++ rest)
        { t with epoll_instances := acc }
      = ({ t with epoll_instances := acc ++ insts }, some rest) := by
  induction insts with
  | nil => intro acc t rest _ _; simp [loadEpollInsts]
  | cons p tl ih =>
    obtain ⟨epfd, ints⟩ := p
    obtain ⟨ints⟩ := ints
    intro acc t rest hnd hb
    have hp := hb (epfd, ⟨ints⟩) (by simp)
    have htl := fun x hx => hb x (List.mem_cons_of_mem _ hx)
    have hepfd : epfd ∉ acc.map (fun r => r.1) := by
      intro hmem
      have hsplit := List.nodup_append.mp (by simpa using hnd)
      exact hsplit.2.2 hmem (by simp)
    have repfd : ∀ r, readNat 4 (encodeLE 4 epfd ++ r) = some (epfd, r) :=
      fun r => readNat_append 4 epfd r (by norm_num; omega)
    have rlen : ∀ r, readNat 4 (encodeLE 4 ints.length ++ r) = some (ints.length, r) :=
      fun r => readNat_append 4 ints.length r (by norm_num; have := hp.2.1; simp at this; omega)
    simp only [List.flatMap_cons, saveEpollInst, List.append_assoc,
      List.length_cons, loadEpollInsts, repfd, rlen]
    rw [getOrCreate_fresh acc epfd hepfd]
    rw [loadInterests_save epfd ints [] acc _ _
      (by have := hp.2.2.1; simpa using this) hepfd
      (by have := hp.2.2.2; simpa using this)]
    have := ih (acc ++ [(epfd, ⟨ints⟩)]) t rest (by simpa using hnd) htl
    simpa using this

theorem loadEpoll_save (m t : MachineState) (rest : List Nat)
    (h : EpollWF m.epoll_instances) :
    loadEpoll (saveEpoll m ++ rest) t
      = ({ t with epoll_instances := m.epoll_instances }, some rest) := by
  obtain ⟨hlen, hnd, hb⟩ := h
  have hc : ∀ r, readNat 4 (encodeLE 4 m.epoll_instances.length ++ r)
      = some (m.epoll_instances.length, r) :=
    fun r => readNat_append 4 m.epoll_instances.length r (by norm_num; omega)
  simp only [saveEpoll, List.append_assoc, loadEpoll, hc]
  have := loadEpollInsts_save m.epoll_instances [] t rest
    (by simpa [KeysNodup] using hnd) hb
  simpa using this

theorem mapInsert_fresh (l : List (Nat × Nat)) (k v : Nat)
    (h : k ∉ l.map (fun q => q.1)) :
    mapInsert l k v = l ++ [(k, v)] := by
  simp [mapInsert, lookup_eq_none_of_not_mem l k h]

theorem loadEventfdEntries_save (l : List (Nat × Nat)) :
    ∀ (acc : List (Nat × Nat)) (t : MachineState) (rest : List Nat),
    ((acc ++ l).map (fun p => p.1)).Nodup →
    (∀ p ∈ l, p.1 < 2 ^ 31 ∧ p.2 < 2 ^ 64) →
    loadEventfdEntries l.length
        (l.flatMap (fun p => encodeLE 4 p.1 ++ encodeLE 8 p.2) ++ rest)
        { t with eventfd_counters := acc }
      = ({ t with eventfd_counters := acc ++ l }, some rest) := by
  induction l with
  | nil => intro acc t rest _ _; simp [loadEventfdEntries]
  | cons p tl ih =>
    obtain ⟨fd, c⟩ := p
    intro acc t rest hnd hb
    have hp := hb (fd, c) (by simp)
    have htl := fun x hx => hb x (List.mem_cons_of_mem _ hx)
    have hfd : fd ∉ acc.map (fun r => r.1) := by
      intro hmem
      have hsplit := List.nodup_append.mp (by simpa using hnd)
      exact hsplit.2.2 hmem (by simp)
    have rfd : ∀ r, readNat 4 (encodeLE 4 fd ++ r) = some (fd, r) :=
      fun r => readNat_append 4 fd r (by norm_num; omega)
    have rc : ∀ r, readNat 8 (encodeLE 8 c ++ r) = some (c, r) :=
      fun r => readNat_append 8 c r (by norm_num; omega)
    simp only [List.flatMap_cons, List.append_assoc, List.length_cons,
      loadEventfdEntries, rfd, rc]
    rw [mapInsert_fresh acc fd c hfd]
    have := ih (acc ++ [(fd, c)]) t rest (by simpa using hnd) htl
    simpa using this

theorem loadEventfd_save (m t : MachineState) (rest : List Nat)
    (h : EventfdWF m.eventfd_counters) :
    loadEventfd (saveEventfd m ++ rest) t
      = ({ t with eventfd_counters := m.eventfd_counters }, some rest) := by
  obtain ⟨hlen, hnd, hb⟩ := h
  have hc : ∀ r, readNat 4 (encodeLE 4 m.eventfd_counters.length ++ r)
      = some (m.eventfd_counters.length, r) :=
    fun r => readNat_append 4 m.eventfd_counters.length r (by norm_num; omega)
  simp only [saveEventfd, List.append_assoc, loadEventfd, hc]
  have := loadEventfdEntries_save m.eventfd_counters [] t rest
    (by simpa [KeysNodup] using hnd) hb
  simpa using this

theorem execPageNumbers_bound (m : MachineState)
    (h : ∀ p ∈ m.pages, p.1 < 2 ^ 64) :
    ∀ v ∈ execPageNumbers m, v < 2 ^ 64 := by
  intro v hv
  simp only [execPageNumbers, List.mem_map, List.mem_filter] at hv
  obtain ⟨p, ⟨hp, _⟩, rfl⟩ := hv
  exact h p hp

/-! ### Arena codec lemmas -/
theorem writeBytes_length (a p : List Nat) (addr : Nat)
    (h : addr + p.length ≤ a.length) :
    (writeBytes a addr p).length = a.length := by
  simp [writeBytes]
  omega

theorem writeBytes_getElem (a p : List Nat) (addr i : Nat)
    (h : addr + p.length ≤ a.length) :
    (writeBytes a addr p)[i]?
      = if addr ≤ i ∧ i < addr + p.length then p[i - addr]? else a[i]? := by
  have hta : (a.take addr).length = addr := by simp; omega
  rw [writeBytes, List.append_assoc]
  by_cases h1 : i < addr
  · rw [if_neg (by omega),
        List.getElem?_append_left (by omega : i < (a.take addr).length),
        List.getElem?_take_of_lt h1]
  · rw [List.getElem?_append_right (by omega : (a.take addr).length ≤ i), hta]
    by_cases h2 : i < addr + p.length
    · rw [if_pos (by omega), List.getElem?_append_left (by omega : i - addr < p.length)]
    · rw [if_neg (by omega), List.getElem?_append_right (by omega : p.length ≤ i - addr),
          List.getElem?_drop]
      congr 1
      omega

theorem take8_enc (v : Nat) (r : List Nat) :
    (encodeLE 8 v ++ r).take 8 = encodeLE 8 v := by
  conv_lhs => rw [show (8 : Nat) = (encodeLE 8 v).length from (encodeLE_length 8 v).symm]
  exact List.take_left _ _

theorem drop8_enc (v : Nat) (r : List Nat) :
    (encodeLE 8 v ++ r).drop 8 = r := by
  conv_lhs => rw [show (8 : Nat) = (encodeLE 8 v).length from (encodeLE_length 8 v).symm]
  exact List.drop_left _ _

theorem drop16_enc (v w : Nat) (r : List Nat) :
    (encodeLE 8 v ++ (encodeLE 8 w ++ r)).drop 16 = r := by
  rw [show (16 : Nat) = 8 + 8 from rfl, ← List.drop_drop, drop8_enc, drop8_enc]

theorem decode_take8 (v : Nat) (r : List Nat) (h : v < 2 ^ 64) :
    decodeLE ((encodeLE 8 v ++ r).take 8) = v := by
  rw [take8_enc]
  exact decodeLE_encodeLE 8 v (by norm_num; omega)

theorem loadArenaLoopF_fuel (f1 : Nat) :
    ∀ (f2 : Nat) (s arena : List Nat), s.length ≤ f1 → s.length ≤ f2 →
    loadArenaLoopF f1 s arena = loadArenaLoopF f2 s arena := by
  induction f1 using Nat.strong_induction_on with
  | _ f1 ih =>
    intro f2 s arena h1 h2
    match f1, f2 with
    | 0, 0 => rfl
    | 0, f2+1 =>
      have : s.length < 16 := by omega
      simp [loadArenaLoopF, this]
    | f1+1, 0 =>
      have : s.length < 16 := by omega
      simp [loadArenaLoopF, this]
    | f1+1, f2+1 =>
      simp only [loadArenaLoopF]
      by_cases hs : s.length < 16
      · simp [hs]
      · simp only [if_neg hs]
        have hd16 : (s.drop 16).length = s.length - 16 := by simp
        split
        · rfl
        · split
          · split
            · exact ih f1 (by omega) f2 _ _ (by simp; omega) (by simp; omega)
            · exact ih f1 (by omega) f2 _ _ (by omega) (by omega)
          · split
            · rfl
            · split
              · exact ih f1 (by omega) f2 _ _ (by simp; omega) (by simp; omega)
              · rfl



theorem sentinelBytes_length : sentinelBytes.length = 16 := by
  simp [sentinelBytes, encodeLE_length]

theorem serializeRecord_length (r : Nat × List Nat) :
    (serializeRecord r).length = 16 + r.2.length := by
  simp [serializeRecord, encodeLE_length]
  omega

theorem loadArenaLoopF_records (rs : List (Nat × List Nat)) :
    ∀ (fuel : Nat) (arena : List Nat),
    (rs.flatMap serializeRecord ++ sentinelBytes).length ≤ fuel →
    (∀ r ∈ rs, RecordWF r) →
    loadArenaLoopF fuel (rs.flatMap serializeRecord ++ sentinelBytes) arena
      = (applyRecords arena (rs.filter (recInRange arena.length)), [], .ok) := by
  induction rs with
  | nil =>
    intro fuel arena hf _
    simp only [List.flatMap_nil, List.nil_append, sentinelBytes_length] at hf ⊢
    match fuel with
    | 0 => omega
    | fuel+1 =>
      have hlen : (sentinelBytes : List Nat).length = 16 := sentinelBytes_length
      simp only [loadArenaLoopF, hlen]
      rw [if_neg (by omega)]
      rw [show (sentinelBytes : List Nat).take 8 = encodeLE 8 SENTINEL_ADDR from by
            rw [sentinelBytes]; exact take8_enc _ _]
      rw [decodeLE_encodeLE 8 SENTINEL_ADDR (by norm_num [SENTINEL_ADDR])]
      rw [if_pos rfl]
      have hd : (sentinelBytes : List Nat).drop 16 = [] := by
        rw [show (sentinelBytes : List Nat)
              = encodeLE 8 SENTINEL_ADDR ++ (encodeLE 8 0 ++ []) from by
            simp [sentinelBytes]]
        exact drop16_enc _ _ _
      rw [hd]
      simp [applyRecords]
  | cons r tl ih =>
    obtain ⟨addr, p⟩ := r
    intro fuel arena hf hwf
    have hr := hwf (addr, p) (by simp)
    have haddr : addr < 2 ^ 64 := by
      have := hr.1
      simp [SENTINEL_ADDR] at this
      omega
    have hplen : p.length < 2 ^ 64 := hr.2.1
    have hmod : (addr + p.length) % 2 ^ 64 = addr + p.length :=
      Nat.mod_eq_of_lt hr.2.2
    have htl := fun x hx => hwf x (List.mem_cons_of_mem _ hx)
    -- normalize the stream
    have hstream : (((addr, p) :: tl).flatMap serializeRecord ++ sentinelBytes)
        = encodeLE 8 addr ++ (encodeLE 8 p.length ++ (p ++ (tl.flatMap serializeRecord ++ sentinelBytes))) := by
      simp [serializeRecord, List.append_assoc]
    have hslen : (((addr, p) :: tl).flatMap serializeRecord ++ sentinelBytes).length
        = 16 + p.length + (tl.flatMap serializeRecord ++ sentinelBytes).length := by
      rw [hstream]
      simp [encodeLE_length]
      omega
    match fuel with
    | 0 =>
      exfalso
      have h16 : (16 : Nat) ≤ (((addr, p) :: tl).flatMap serializeRecord ++ sentinelBytes).length := by
        rw [hslen]; omega
      omega
    | fuel+1 =>
      simp only [loadArenaLoopF]
      rw [if_neg (by rw [hslen]; omega)]
      rw [hstream]
      rw [decode_take8 addr _ haddr, drop8_enc,
          decode_take8 p.length _ hplen]
      rw [show (encodeLE 8 addr ++ (encodeLE 8 p.length ++ (p ++ (tl.flatMap serializeRecord ++ sentinelBytes)))).drop 16
            = p ++ (tl.flatMap serializeRecord ++ sentinelBytes) from drop16_enc _ _ _]
      rw [hmod]
      rw [if_neg (by
        intro hc
        have := hr.1
        omega)]
      have hptake : (p ++ (tl.flatMap serializeRecord ++ sentinelBytes)).take p.length = p :=
        List.take_left _ _
      have hpdrop : (p ++ (tl.flatMap serializeRecord ++ sentinelBytes)).drop p.length
          = tl.flatMap serializeRecord ++ sentinelBytes :=
        List.drop_left _ _
      have hrest_le : (tl.flatMap serializeRecord ++ sentinelBytes).length ≤ fuel := by
        rw [hslen] at hf
        omega
      by_cases hrange : addr + p.length > arena.length
      · -- skipped record
        rw [if_pos hrange]
        rw [if_pos (by simp only [List.length_append]; omega)]
        rw [hpdrop, ih fuel arena hrest_le htl]
        have : recInRange arena.length (addr, p) = false := by
          simp [recInRange, hmod]; omega
        simp [List.filter_cons, this]
      · -- in-range record
        rw [if_neg hrange]
        rw [if_neg (by simp only [List.length_append]; omega)]
        rw [if_pos (by omega)]
        rw [hptake, hpdrop]
        have harena' : (writeBytes arena addr p).length = arena.length :=
          writeBytes_length arena p addr (by omega)
        rw [ih fuel (writeBytes arena addr p) hrest_le htl]
        have : recInRange arena.length (addr, p) = true := by
          simp [recInRange, hmod]; omega
        simp [List.filter_cons, this, applyRecords, harena']



theorem window_zero_getElem (arena : List Nat) (o i : Nat)
    (hw : ((arena.drop o).take CHUNK_SIZE).all (· == 0) = true)
    (h1 : o ≤ i) (h2 : i < o + CHUNK_SIZE) (h3 : i < arena.length) :
    arena[i]? = some 0 := by
  have he : arena[i]? = ((arena.drop o).take CHUNK_SIZE)[i - o]? := by
    rw [List.getElem?_take_of_lt (by omega), List.getElem?_drop]
    congr 1
    omega
  rw [he]
  have hlt : i - o < ((arena.drop o).take CHUNK_SIZE).length := by
    simp
    omega
  rw [List.getElem?_eq_getElem hlt]
  have := List.all_eq_true.mp hw _ (List.getElem_mem hlt)
  simpa using this

theorem dropRegion_zero_getElem (arena : List Nat) (o i : Nat)
    (hw : (arena.drop o).all (· == 0) = true)
    (h1 : o ≤ i) (h3 : i < arena.length) :
    arena[i]? = some 0 := by
  have he : arena[i]? = (arena.drop o)[i - o]? := by
    rw [List.getElem?_drop]
    congr 1
    omega
  rw [he]
  have hlt : i - o < (arena.drop o).length := by
    simp
    omega
  rw [List.getElem?_eq_getElem hlt]
  have := List.all_eq_true.mp hw _ (List.getElem_mem hlt)
  simpa using this

theorem applyRecords_fullChunks (arena : List Nat) :
    ∀ (n o : Nat) (r : List Nat), r.length = arena.length →
    o + n * CHUNK_SIZE ≤ arena.length →
    (∀ i, o ≤ i → i < arena.length → r[i]? = some 0) →
    (applyRecords r (fullChunks arena o n)).length = arena.length ∧
    (∀ i, i < o → (applyRecords r (fullChunks arena o n))[i]? = r[i]?) ∧
    (∀ i, o ≤ i → i < o + n * CHUNK_SIZE →
      (applyRecords r (fullChunks arena o n))[i]? = arena[i]?) ∧
    (∀ i, o + n * CHUNK_SIZE ≤ i → i < arena.length →
      (applyRecords r (fullChunks arena o n))[i]? = some 0) := by
  intro n
  induction n with
  | zero =>
    intro o r hlen hbound hzero
    refine ⟨by simpa [fullChunks, applyRecords], ?_, ?_, ?_⟩
    · intro i _
      simp [fullChunks, applyRecords]
    · intro i hi1 hi2
      omega
    · intro i hi1 hi2
      simpa [fullChunks, applyRecords] using hzero i (by omega) hi2
  | succ n ih =>
    intro o r hlen hbound hzero
    have hoC : o + CHUNK_SIZE + n * CHUNK_SIZE ≤ arena.length := by
      have : (n + 1) * CHUNK_SIZE = n * CHUNK_SIZE + CHUNK_SIZE := Nat.succ_mul n _
      omega
    rw [show fullChunks arena o (n+1)
        = ((if ((arena.drop o).take CHUNK_SIZE).all (· == 0) then []
            else [(o, (arena.drop o).take CHUNK_SIZE)])
           ++ fullChunks arena (o + CHUNK_SIZE) n) from rfl]
    rw [show ∀ x y, applyRecords r (x ++ y) = applyRecords (applyRecords r x) y from
      fun x y => List.foldl_append _ _ x y]
    by_cases hz : ((arena.drop o).take CHUNK_SIZE).all (· == 0) = true
    · rw [if_pos hz]
      have hzero' : ∀ i, o + CHUNK_SIZE ≤ i → i < arena.length → r[i]? = some 0 :=
        fun i hi1 hi2 => hzero i (by omega) hi2
      obtain ⟨c1, c2, c3, c4⟩ := ih (o + CHUNK_SIZE) r hlen hoC hzero'
      simp only [applyRecords, List.foldl_nil] at c1 c2 c3 c4 ⊢
      refine ⟨c1, fun i hi => c2 i (by omega), ?_, ?_⟩
      · intro i hi1 hi2
        by_cases hc : i < o + CHUNK_SIZE
        · rw [c2 i hc, hzero i hi1 (by omega),
              window_zero_getElem arena o i hz hi1 hc (by omega)]
        · exact c3 i (by omega) (by
            have : (n + 1) * CHUNK_SIZE = n * CHUNK_SIZE + CHUNK_SIZE := Nat.succ_mul n _
            omega)
      · intro i hi1 hi2
        exact c4 i (by
          have : (n + 1) * CHUNK_SIZE = n * CHUNK_SIZE + CHUNK_SIZE := Nat.succ_mul n _
          omega) hi2
    · rw [if_neg hz]
      have hwlen : ((arena.drop o).take CHUNK_SIZE).length = CHUNK_SIZE := by
        simp
        omega
      have hfit : o + ((arena.drop o).take CHUNK_SIZE).length ≤ r.length := by
        rw [hwlen, hlen]
        omega
      have hr1len : (writeBytes r o ((arena.drop o).take CHUNK_SIZE)).length
          = arena.length := by
        rw [writeBytes_length _ _ _ hfit, hlen]
      have hr1get : ∀ i, (writeBytes r o ((arena.drop o).take CHUNK_SIZE))[i]?
          = if o ≤ i ∧ i < o + CHUNK_SIZE
            then ((arena.drop o).take CHUNK_SIZE)[i - o]? else r[i]? := by
        intro i
        rw [writeBytes_getElem _ _ _ _ hfit, hwlen]
      have hwin : ∀ i, o ≤ i → i < o + CHUNK_SIZE →
          ((arena.drop o).take CHUNK_SIZE)[i - o]? = arena[i]? := by
        intro i hi1 hi2
        rw [List.getElem?_take_of_lt (by omega), List.getElem?_drop]
        congr 1
        omega
      have hzero' : ∀ i, o + CHUNK_SIZE ≤ i → i < arena.length →
          (writeBytes r o ((arena.drop o).take CHUNK_SIZE))[i]? = some 0 := by
        intro i hi1 hi2
        rw [hr1get, if_neg (by omega)]
        exact hzero i (by omega) hi2
      obtain ⟨c1, c2, c3, c4⟩ := ih (o + CHUNK_SIZE)
        (writeBytes r o ((arena.drop o).take CHUNK_SIZE)) hr1len hoC hzero'
      simp only [applyRecords, List.foldl_cons, List.foldl_nil] at c1 c2 c3 c4 ⊢
      refine ⟨c1, ?_, ?_, ?_⟩
      · intro i hi
        rw [c2 i (by omega), hr1get, if_neg (by omega)]
      · intro i hi1 hi2
        by_cases hc : i < o + CHUNK_SIZE
        · rw [c2 i hc, hr1get, if_pos (by omega), hwin i hi1 hc]
        · exact c3 i (by omega) (by
            have : (n + 1) * CHUNK_SIZE = n * CHUNK_SIZE + CHUNK_SIZE := Nat.succ_mul n _
            omega)
      · intro i hi1 hi2
        exact c4 i (by
          have : (n + 1) * CHUNK_SIZE = n * CHUNK_SIZE + CHUNK_SIZE := Nat.succ_mul n _
          omega) hi2



theorem applyRecords_chunkRecords (arena : List Nat) :
    applyRecords (List.replicate arena.length 0) (chunkRecords arena) = arena := by
  have hNC : (arena.length / CHUNK_SIZE) * CHUNK_SIZE ≤ arena.length :=
    Nat.div_mul_le_self _ _
  have hrep : ∀ i : Nat, i < arena.length → (List.replicate arena.length (0 : Nat))[i]? = some 0 := by
    intro i hi
    simp [List.getElem?_replicate, hi]
  obtain ⟨c1, c2, c3, c4⟩ := applyRecords_fullChunks arena
    (arena.length / CHUNK_SIZE) 0 (List.replicate arena.length 0)
    (by simp) (by simpa using hNC) (fun i _ hi => hrep i hi)
  set res1 := applyRecords (List.replicate arena.length 0)
    (fullChunks arena 0 (arena.length / CHUNK_SIZE)) with hres1
  rw [chunkRecords, show ∀ x y, applyRecords (List.replicate arena.length 0) (x ++ y)
      = applyRecords (applyRecords (List.replicate arena.length 0) x) y from
    fun x y => List.foldl_append _ _ x y]
  rw [← hres1]
  simp only [Nat.zero_add] at c3 c4
  apply List.ext_getElem?
  intro i
  by_cases hlen : i < arena.length
  · rw [tailChunk]
    by_cases htail : (arena.length / CHUNK_SIZE) * CHUNK_SIZE < arena.length
         ∧ ¬((arena.drop ((arena.length / CHUNK_SIZE) * CHUNK_SIZE)).all (· == 0) = true)
    · rw [if_pos (by simpa using htail)]
      have htlen : (arena.drop ((arena.length / CHUNK_SIZE) * CHUNK_SIZE)).length
          = arena.length - (arena.length / CHUNK_SIZE) * CHUNK_SIZE := by simp
      have hfit : (arena.length / CHUNK_SIZE) * CHUNK_SIZE +
          (arena.drop ((arena.length / CHUNK_SIZE) * CHUNK_SIZE)).length ≤ res1.length := by
        rw [htlen, c1]
        omega
      simp only [applyRecords, List.foldl_cons, List.foldl_nil]
      rw [writeBytes_getElem _ _ _ _ hfit]
      by_cases hc : (arena.length / CHUNK_SIZE) * CHUNK_SIZE ≤ i
      · rw [if_pos (by rw [htlen]; omega)]
        rw [List.getElem?_drop]
        congr 1
        omega
      · rw [if_neg (by rw [htlen]; omega)]
        exact c3 i (by omega) (by omega)
    · rw [if_neg (by simpa using htail)]
      simp only [applyRecords, List.foldl_nil]
      by_cases hc : i < (arena.length / CHUNK_SIZE) * CHUNK_SIZE
      · exact c3 i (by omega) hc
      · -- the tail region is absent or all-zero
        rw [c4 i (by omega) hlen]
        rcases Decidable.not_and_iff_or_not.mp htail with hno | hzero
        · omega
        · rw [dropRegion_zero_getElem arena ((arena.length / CHUNK_SIZE) * CHUNK_SIZE) i
            (by simpa using Decidable.not_not.mp hzero) (by omega) hlen]
  · -- beyond both lists
    have h1 : arena[i]? = none := List.getElem?_eq_none_iff.mpr (by omega)
    have h2 : (applyRecords res1 (tailChunk arena))[i]? = none := by
      apply List.getElem?_eq_none_iff.mpr
      rw [tailChunk]
      by_cases htail : (arena.length / CHUNK_SIZE) * CHUNK_SIZE < arena.length
           ∧ ¬((arena.drop ((arena.length / CHUNK_SIZE) * CHUNK_SIZE)).all (· == 0) = true)
      · rw [if_pos (by simpa using htail)]
        simp only [applyRecords, List.foldl_cons, List.foldl_nil]
        have htlen : (arena.drop ((arena.length / CHUNK_SIZE) * CHUNK_SIZE)).length
            = arena.length - (arena.length / CHUNK_SIZE) * CHUNK_SIZE := by simp
        rw [writeBytes_length _ _ _ (by rw [htlen, c1]; omega), c1]
        omega
      · rw [if_neg (by simpa using htail)]
        simp only [applyRecords, List.foldl_nil]
        rw [c1]
        omega
    rw [h1, h2]



theorem fullChunks_mem (arena : List Nat) :
    ∀ (n o : Nat) (r : Nat × List Nat), r ∈ fullChunks arena o n →
    ∃ k, k < n ∧ r.1 = o + k * CHUNK_SIZE ∧
      r.2 = (arena.drop r.1).take CHUNK_SIZE := by
  intro n
  induction n with
  | zero => intro o r hr; simp [fullChunks] at hr
  | succ n ih =>
    intro o r hr
    rw [show fullChunks arena o (n+1)
        = ((if ((arena.drop o).take CHUNK_SIZE).all (· == 0) then []
            else [(o, (arena.drop o).take CHUNK_SIZE)])
           ++ fullChunks arena (o + CHUNK_SIZE) n) from rfl] at hr
    rcases List.mem_append.mp hr with hw | hrec
    · by_cases hz : ((arena.drop o).take CHUNK_SIZE).all (· == 0) = true
      · simp [hz] at hw
      · rw [if_neg hz] at hw
        simp at hw
        exact ⟨0, by omega, by simp [hw], by simp [hw]⟩
    · obtain ⟨k, hk, h1, h2⟩ := ih (o + CHUNK_SIZE) r hrec
      exact ⟨k + 1, by omega, by rw [h1, Nat.succ_mul]; ring, h2⟩

theorem chunkRecords_wf (arena : List Nat)
    (h : arena.length + CHUNK_SIZE < 2 ^ 64) :
    ∀ r ∈ chunkRecords arena,
      RecordWF r ∧ recInRange arena.length r = true := by
  intro r hr
  rw [chunkRecords] at hr
  rcases List.mem_append.mp hr with hfull | htail
  · obtain ⟨k, hk, h1, h2⟩ := fullChunks_mem arena (arena.length / CHUNK_SIZE) 0 r hfull
    have hNC : (arena.length / CHUNK_SIZE) * CHUNK_SIZE ≤ arena.length :=
      Nat.div_mul_le_self _ _
    have hoff : r.1 + CHUNK_SIZE ≤ arena.length := by
      rw [h1]
      simp only [Nat.zero_add]
      calc k * CHUNK_SIZE + CHUNK_SIZE = (k + 1) * CHUNK_SIZE := by ring
      _ ≤ (arena.length / CHUNK_SIZE) * CHUNK_SIZE := by
          exact Nat.mul_le_mul_right _ (by omega)
      _ ≤ arena.length := hNC
    have hlen2 : r.2.length = CHUNK_SIZE := by
      rw [h2]
      simp
      omega
    refine ⟨⟨?_, ?_, ?_⟩, ?_⟩
    · simp only [SENTINEL_ADDR]
      have : (0 : Nat) < CHUNK_SIZE := by norm_num [CHUNK_SIZE]
      omega
    · rw [hlen2]
      have : (0 : Nat) < CHUNK_SIZE := by norm_num [CHUNK_SIZE]
      omega
    · rw [hlen2]
      omega
    · simp only [recInRange, hlen2]
      rw [Nat.mod_eq_of_lt (by omega)]
      simp
      omega
  · rw [tailChunk] at htail
    by_cases hc : (arena.length / CHUNK_SIZE) * CHUNK_SIZE < arena.length
        ∧ ¬((arena.drop ((arena.length / CHUNK_SIZE) * CHUNK_SIZE)).all (· == 0) = true)
    · rw [if_pos (by simpa using hc)] at htail
      simp only [List.mem_singleton] at htail
      subst htail
      have hlt : (arena.length / CHUNK_SIZE) * CHUNK_SIZE < arena.length := hc.1
      have htlen : (arena.drop ((arena.length / CHUNK_SIZE) * CHUNK_SIZE)).length
          = arena.length - (arena.length / CHUNK_SIZE) * CHUNK_SIZE := by simp
      refine ⟨⟨?_, ?_, ?_⟩, ?_⟩
      · show (arena.length / CHUNK_SIZE) * CHUNK_SIZE < SENTINEL_ADDR
        simp only [SENTINEL_ADDR]
        have hC : (0 : Nat) < CHUNK_SIZE := by norm_num [CHUNK_SIZE]
        omega
      · show (arena.drop ((arena.length / CHUNK_SIZE) * CHUNK_SIZE)).length < 2 ^ 64
        rw [htlen]
        omega
      · show (arena.length / CHUNK_SIZE) * CHUNK_SIZE +
            (arena.drop ((arena.length / CHUNK_SIZE) * CHUNK_SIZE)).length < 2 ^ 64
        rw [htlen]
        omega
      · simp only [recInRange, htlen]
        rw [Nat.mod_eq_of_lt (by omega)]
        simp only [decide_eq_true_eq]
        omega
    · rw [if_neg (by simpa using hc)] at htail
      simp at htail

theorem loadArenaLoop_save (arena : List Nat)
    (h : arena.length + CHUNK_SIZE < 2 ^ 64) :
    loadArenaLoop ((chunkRecords arena).flatMap serializeRecord ++ sentinelBytes)
        (List.replicate arena.length 0)
      = (arena, [], .ok) := by
  rw [loadArenaLoop,
      loadArenaLoopF_records (chunkRecords arena) _ (List.replicate arena.length 0)
        (le_refl _) (fun r hr => (chunkRecords_wf arena h r hr).1)]
  have hfilter : (chunkRecords arena).filter
      (recInRange (List.replicate arena.length (0 : Nat)).length) = chunkRecords arena := by
    apply List.filter_eq_self.mpr
    intro r hr
    have := (chunkRecords_wf arena h r hr).2
    simpa using this
  rw [hfilter, applyRecords_chunkRecords]

/-! ### Page-attribute lemmas -/
theorem lookup_mem {β : Type} (l : List (Nat × β)) (k : Nat) (b : β)
    (h : l.lookup k = some b) : (k, b) ∈ l := by
  obtain ⟨l1, l2, rfl, _⟩ := List.lookup_eq_some_iff.mp h
  simp

theorem lookup_of_mem_nodup {β : Type} (l : List (Nat × β)) (k : Nat) (b : β)
    (hnd : KeysNodup l) (hmem : (k, b) ∈ l) : l.lookup k = some b := by
  induction l with
  | nil => simp at hmem
  | cons p t ih =>
    obtain ⟨a, c⟩ := p
    rcases List.mem_cons.mp hmem with heq | hmem'
    · obtain ⟨rfl, rfl⟩ := Prod.mk.injEq .. ▸ heq
      · exact List.lookup_cons_self
    · have hk : (k == a) = false := by
        simp only [KeysNodup, List.map_cons, List.nodup_cons] at hnd
        have : k ∈ t.map (fun p => p.1) := by
          simp only [List.mem_map]
          exact ⟨(k, b), hmem', rfl⟩
        simp
        intro hka
        rw [hka] at this
        exact hnd.1 this
      rw [List.lookup_cons]
      simp only [hk]
      exact ih (by
        simp only [KeysNodup, List.map_cons, List.nodup_cons] at hnd
        exact hnd.2) hmem'

theorem lookup_map_replace (pages : List (Nat × PageAttr)) (pn : Nat)
    (attr : PageAttr) (h : (pages.lookup pn).isSome = true) :
    (pages.map (fun p => if p.1 = pn then (pn, attr) else p)).lookup pn
      = some attr := by
  induction pages with
  | nil => simp at h
  | cons p t ih =>
    obtain ⟨a, b⟩ := p
    simp only [List.map_cons]
    by_cases ha : a = pn
    · rw [if_pos (by simpa using ha)]
      exact List.lookup_cons_self
    · rw [if_neg (by simpa using ha)]
      have hk : (pn == a) = false := by simp; omega
      rw [List.lookup_cons]
      simp only [hk]
      apply ih
      rw [List.lookup_cons] at h
      simpa [hk] using h

theorem lookup_map_replace_ne (pages : List (Nat × PageAttr)) (pn k : Nat)
    (attr : PageAttr) (h : k ≠ pn) :
    (pages.map (fun p => if p.1 = pn then (pn, attr) else p)).lookup k
      = pages.lookup k := by
  induction pages with
  | nil => rfl
  | cons p t ih =>
    obtain ⟨a, b⟩ := p
    simp only [List.map_cons]
    by_cases ha : a = pn
    · rw [if_pos (by simpa using ha)]
      have h1 : (k == pn) = false := by simp; omega
      have h2 : (k == a) = false := by simp; omega
      rw [List.lookup_cons, List.lookup_cons]
      simp [h1, h2, ih]
    · rw [if_neg (by simpa using ha)]
      rw [List.lookup_cons, List.lookup_cons]
      cases hk : k == a <;> simp [hk, ih]

theorem lookup_applyExecAttr_self (pages : List (Nat × PageAttr)) (pn : Nat) :
    (applyExecAttr pages pn).lookup pn = some ⟨true, false, true⟩ := by
  rw [applyExecAttr]
  cases h : pages.lookup pn with
  | some a =>
    simp only []
    exact lookup_map_replace pages pn _ (by simp [h])
  | none =>
    simp only []
    rw [List.lookup_append, h]
    simp

theorem lookup_applyExecAttr_ne (pages : List (Nat × PageAttr)) (pn k : Nat)
    (h : k ≠ pn) :
    (applyExecAttr pages pn).lookup k = pages.lookup k := by
  rw [applyExecAttr]
  cases hl : pages.lookup pn with
  | some a =>
    simp only []
    exact lookup_map_replace_ne pages pn k _ h
  | none =>
    simp only []
    rw [List.lookup_append]
    have : ([((pn, (⟨true, false, true⟩ : PageAttr)))].lookup k) = none := by
      simp [List.lookup_cons, show (k == pn) = false from by simp [h]]
    rw [this]
    cases pages.lookup k <;> rfl

theorem lookup_foldl_applyExecAttr (l : List Nat) :
    ∀ (pages : List (Nat × PageAttr)) (n : Nat),
    (l.foldl applyExecAttr pages).lookup n
      = if n ∈ l then some ⟨true, false, true⟩ else pages.lookup n := by
  induction l with
  | nil => intro pages n; simp
  | cons a t ih =>
    intro pages n
    simp only [List.foldl_cons]
    rw [ih (applyExecAttr pages a) n]
    by_cases hmem : n ∈ t
    · rw [if_pos hmem, if_pos (by simp [hmem])]
    · rw [if_neg hmem]
      by_cases hna : n = a
      · subst hna
        rw [if_pos (by simp), lookup_applyExecAttr_self]
      · rw [if_neg (by simp [hna, hmem]), lookup_applyExecAttr_ne pages a n hna]

/-- Master round trip: loading a checkpoint of `S` into a target `T` with
the same arena size succeeds and produces exactly the expected state. -/
theorem load_save_checkpoint (S T : MachineState) (hwf : WF S)
    (harena : T.arena.length = S.arena.length) :
    load_checkpoint (save_checkpoint S) T
      = ({ T with
            pc := S.pc
            fcsr := S.fcsr
            iregs := S.iregs
            fregs := S.fregs
            mmap_address := S.mmap_address
            exec_ctx := S.exec_ctx
            sched := S.sched
            next_pid := S.next_pid
            next_epoll_fd := S.next_epoll_fd
            epoll_instances := S.epoll_instances
            eventfd_counters := S.eventfd_counters
            pages := (execPageNumbers S).foldl applyExecAttr T.pages
            arena := S.arena
            waiting_for_stdin := true }, none) := by
  obtain ⟨w1, w2, w3, w4, w5, w6, w7, w8, w9, w10, w11, w12, w13, w14, w15⟩ := hwf
  have hblob : save_checkpoint S
      = saveHeader ++ (saveCpu S ++ (saveMemExec S ++ (saveSched S ++
        (saveEpoll S ++ (saveEventfd S ++ (saveExecPages S ++ saveArena S)))))) := by
    simp [save_checkpoint, List.append_assoc]
  have HF : ∀ r, loadFixed (saveCpu S ++ (saveMemExec S ++ r)) = some (stagedOf S, r) :=
    fun r => loadFixed_save S r w1 w2 w3 w4 w5 w6 w7 w8
  have HS : ∀ (r : List Nat) (t : MachineState), loadSched (saveSched S ++ r) t
      = ({ t with
            sched := S.sched
            next_pid := S.next_pid
            next_epoll_fd := S.next_epoll_fd }, some r) :=
    fun r t => loadSched_save S t r w9 w10 w11
  have HE : ∀ (r : List Nat) (t : MachineState), loadEpoll (saveEpoll S ++ r) t
      = ({ t with epoll_instances := S.epoll_instances }, some r) :=
    fun r t => loadEpoll_save S t r w12
  have HV : ∀ (r : List Nat) (t : MachineState), loadEventfd (saveEventfd S ++ r) t
      = ({ t with eventfd_counters := S.eventfd_counters }, some r) :=
    fun r t => loadEventfd_save S t r w13
  obtain ⟨p1, p2, p3⟩ := w14
  have hcount : (execPageNumbers S).length < 2 ^ 64 := by
    have : (execPageNumbers S).length ≤ S.pages.length := by
      simp only [execPageNumbers]
      calc ((S.pages.filter (fun p => p.2.exec)).map (fun p => p.1)).length
          = (S.pages.filter (fun p => p.2.exec)).length := by simp
      _ ≤ S.pages.length := List.length_filter_le _ _
    omega
  have HP : ∀ r, readNat 8 (encodeLE 8 (execPageNumbers S).length ++ r)
      = some ((execPageNumbers S).length, r) :=
    fun r => readNat_append 8 _ r (by norm_num; omega)
  have HV2 : ∀ r, readVals 8 (execPageNumbers S).length
      ((execPageNumbers S).flatMap (encodeLE 8) ++ r)
      = some (execPageNumbers S, r) :=
    fun r => readVals_append 8 _ r
      (by norm_num; exact fun v hv => execPageNumbers_bound S p3 v hv)
  have HA : loadArenaLoop ((chunkRecords S.arena).flatMap serializeRecord ++ sentinelBytes)
      (List.replicate T.arena.length 0) = (S.arena, [], .ok) := by
    rw [harena]
    exact loadArenaLoop_save S.arena w15
  simp only [load_checkpoint, hblob, loadHeader_save, HF, HS, HE, HV,
    saveExecPages, List.append_assoc, HP, HV2, saveArena, HA,
    stagedOf, flagByte_bne]

theorem fullChunks_allZero (arena : List Nat) (hz : ∀ b ∈ arena, b = 0) :
    ∀ (n o : Nat), fullChunks arena o n = [] := by
  intro n
  induction n with
  | zero => intro o; rfl
  | succ n ih =>
    intro o
    have hw : ((arena.drop o).take CHUNK_SIZE).all (· == 0) = true := by
      apply List.all_eq_true.mpr
      intro b hb
      have hmem : b ∈ arena := List.mem_of_mem_drop (List.mem_of_mem_take hb)
      simp [hz b hmem]
    rw [show fullChunks arena o (n+1)
        = ((if ((arena.drop o).take CHUNK_SIZE).all (· == 0) then []
            else [(o, (arena.drop o).take CHUNK_SIZE)])
           ++ fullChunks arena (o + CHUNK_SIZE) n) from rfl]
    rw [if_pos hw, ih (o + CHUNK_SIZE)]
    rfl

theorem chunkRecords_allZero (arena : List Nat) (hz : ∀ b ∈ arena, b = 0) :
    chunkRecords arena = [] := by
  rw [chunkRecords, fullChunks_allZero arena hz, tailChunk]
  have hw : (arena.drop ((arena.length / CHUNK_SIZE) * CHUNK_SIZE)).all (· == 0) = true := by
    apply List.all_eq_true.mpr
    intro b hb
    simp [hz b (List.mem_of_mem_drop hb)]
  rw [if_neg (by simp [hw])]
  rfl

theorem mem_execPageNumbers (S : MachineState) (hnd : KeysNodup S.pages)
    (n : Nat) : n ∈ execPageNumbers S ↔ isExecPage S n := by
  constructor
  · intro h
    simp only [execPageNumbers, List.mem_map, List.mem_filter] at h
    obtain ⟨p, ⟨hp, hex⟩, hn⟩ := h
    refine ⟨p.2, ?_, by simpa using hex⟩
    have : (n, p.2) ∈ S.pages := by
      rw [← hn]
      exact hp
    exact lookup_of_mem_nodup S.pages n p.2 hnd this
  · intro h
    obtain ⟨a, hl, hex⟩ := h
    have hmem : (n, a) ∈ S.pages := lookup_mem S.pages n a hl
    simp only [execPageNumbers, List.mem_map, List.mem_filter]
    exact ⟨(n, a), ⟨hmem, by simpa using hex⟩, rfl⟩

/-! ### memmove correctness lemmas -/

theorem copyFwd_spec (d s : Nat) (hds : d < s) :
    ∀ k i mem, (∀ a, a < d + i ∨ d + i + k ≤ a → copyFwd d s i k mem a = mem a) ∧
      (∀ j, i ≤ j → j < i + k → copyFwd d s i k mem (d + j) = mem (s + j)) := by
  intro k
  induction k with
  | zero =>
    intro i mem
    refine ⟨fun a _ => rfl, fun j h1 h2 => absurd (lt_of_le_of_lt h1 h2) (by omega)⟩
  | succ k ih =>
    intro i mem
    have h := ih (i+1) (memUpd mem (d+i) (mem (s+i)))
    constructor
    · intro a ha
      have step : copyFwd d s i (k+1) mem a
          = copyFwd d s (i+1) k (memUpd mem (d+i) (mem (s+i))) a := rfl
      rw [step, h.1 a (by omega)]
      have : a ≠ d + i := by omega
      simp [memUpd, this]
    · intro j h1 h2
      by_cases hj : j = i
      · have step : copyFwd d s i (k+1) mem (d+j)
            = copyFwd d s (i+1) k (memUpd mem (d+i) (mem (s+i))) (d+j) := rfl
        rw [step, h.1 (d+j) (by omega)]
        simp [memUpd, hj]
      · have step : copyFwd d s i (k+1) mem (d+j)
            = copyFwd d s (i+1) k (memUpd mem (d+i) (mem (s+i))) (d+j) := rfl
        rw [step, h.2 j (by omega) (by omega)]
        have : s + j ≠ d + i := by omega
        simp [memUpd, this]

theorem copyBwd_spec (d s : Nat) (hds : s ≤ d) :
    ∀ k mem, (∀ a, a < d ∨ d + k ≤ a → copyBwd d s k mem a = mem a) ∧
      (∀ j, j < k → copyBwd d s k mem (d + j) = mem (s + j)) := by
  intro k
  induction k with
  | zero =>
    intro mem
    exact ⟨fun a _ => rfl, fun j h => absurd h (by omega)⟩
  | succ k ih =>
    intro mem
    have h := ih (memUpd mem (d+k) (mem (s+k)))
    constructor
    · intro a ha
      have step : copyBwd d s (k+1) mem a
          = copyBwd d s k (memUpd mem (d+k) (mem (s+k))) a := rfl
      rw [step, h.1 a (by omega)]
      have : a ≠ d + k := by omega
      simp [memUpd, this]
    · intro j hj
      by_cases hjk : j = k
      · have step : copyBwd d s (k+1) mem (d+j)
            = copyBwd d s k (memUpd mem (d+k) (mem (s+k))) (d+j) := rfl
        rw [step, h.1 (d+j) (by omega)]
        simp [memUpd, hjk]
      · have step : copyBwd d s (k+1) mem (d+j)
            = copyBwd d s k (memUpd mem (d+k) (mem (s+k))) (d+j) := rfl
        rw [step, h.2 j (by omega)]
        have : s + j ≠ d + k := by omega
        simp [memUpd, this]

/-- C10: for every length `n ≤ 1024` the guest shim's `memmove` performs
the copy locally (no hypercall) and returns `dest`; the resulting memory
holds the original source bytes at `dest..dest+n-1` — correct under
overlap — and is unchanged elsewhere. -/
theorem c10_memmove_local_correct (mem : Nat → Nat) (dest src n : Nat)
    (hn : n ≤ 1024) :
    ∃ mem', memmove mem dest src n = .localCopy mem' dest ∧
      (∀ i, i < n → mem' (dest + i) = mem (src + i)) ∧
      (∀ a, a < dest ∨ dest + n ≤ a → mem' a = mem a) := by
  unfold memmove
  rw [if_neg (by omega)]
  by_cases h : dest < src
  · rw [if_pos h]
    refine ⟨_, rfl, ?_, ?_⟩
    · intro i hi
      exact (copyFwd_spec dest src h n 0 mem).2 i (Nat.zero_le i) (by omega)
    · intro a ha
      exact (copyFwd_spec dest src h n 0 mem).1 a (by omega)
  · rw [if_neg h]
    refine ⟨_, rfl, ?_, ?_⟩
    · intro i hi
      exact (copyBwd_spec dest src (by omega) n mem).2 i hi
    · intro a ha
      exact (copyBwd_spec dest src (by omega) n mem).1 a ha

set_option maxRecDepth 4000 in
/-- C3: for every installed hypercall handler, when the host primitive it
invokes fails (returns its negative sentinel), the handler writes exactly
one negative scalar to the guest result register.  `resultRegister` being
`some` for every installed ecall is the no-unwind half: each handler
completes by writing its result, with no exception channel. -/
theorem c3_handler_contains_primitive_failure (n : Nat)
    (hn : n ∈ installedEcalls) (env : PrimEnv) (sinValid : Bool)
    (destAddr : Nat) (hfail : PrimFailure n env) :
    ∃ r, resultRegister env sinValid destAddr n = some r ∧ r < 0 := by
  fin_cases hn <;>
    (simp only [PrimFailure, falliblePrim] at hfail
     try first
       | exact ⟨_, rfl, hfail⟩
       | exact ⟨_, rfl, by
           cases sinValid with
           | false => simp
           | true => simpa using hfail⟩)

/-- Witness for C3: ecall 601 with the native-stub failure value -38. -/
theorem c3_handler_contains_primitive_failure_witness :
    601 ∈ installedEcalls ∧
    ∃ r, resultRegister ⟨-38, -38, -38, -38, 0⟩ true 0 601 = some r ∧ r < 0 :=
  ⟨by decide, c3_handler_contains_primitive_failure 601 (by decide)
    ⟨-38, -38, -38, -38, 0⟩ true 0
    (by show (-38 : Int) < 0; decide)⟩

/-- C4 counterexample: the claim routes every intercepted operation on an
fd in the reserved window 500–599 to the network band (ecalls 802/803),
but `pread(500, …)` routes to the storage band (ecall 604) and
`close(500)` to ecall 603. -/
theorem c4_counterexample :
    pread_route 500 = Route.ecall 604 ∧ close_route 500 = Route.ecall 603 ∧
    pread_route 500 ≠ Route.ecall 802 ∧ pread_route 500 ≠ Route.ecall 803 := by
  decide

/-- C4 amended: descriptors 0–2 (and all fds ≤ 2) pass through to the raw
host syscalls for all four operations; the window 500–599 routes to the
network band only for `write` (ecall 802) and `read` (ecall 803); fd 99
routes to the JSON side channel (ecall 708) only for `write`; every other
fd > 2 routes `write` to 601 and `read` to 602; and `pread`/`close` route
every fd > 2 — including 99 and 500–599 — to the storage band
(ecalls 604/603). -/
theorem c4_amended_fd_routing (fd : Int) :
    (fd ≤ 2 → write_route fd = .rawSyscall SYS_write ∧
      read_route fd = .rawSyscall SYS_read ∧
      pread_route fd = .rawSyscall SYS_pread64 ∧
      close_route fd = .rawSyscall SYS_close) ∧
    (fd = 99 → write_route fd = .ecall 708) ∧
    (500 ≤ fd → fd < 600 → write_route fd = .ecall 802 ∧
      read_route fd = .ecall 803) ∧
    (2 < fd → fd ≠ 99 → ¬(500 ≤ fd ∧ fd < 600) → write_route fd = .ecall 601) ∧
    (2 < fd → ¬(500 ≤ fd ∧ fd < 600) → read_route fd = .ecall 602) ∧
    (2 < fd → pread_route fd = .ecall 604 ∧ close_route fd = .ecall 603) := by
  unfold write_route read_route pread_route close_route
  refine ⟨fun h => ⟨?_, ?_, ?_, ?_⟩, fun h => ?_, fun h1 h2 => ⟨?_, ?_⟩,
    fun h1 h2 h3 => ?_, fun h1 h2 => ?_, fun h => ⟨?_, ?_⟩⟩ <;>
    split_ifs <;> first | rfl | (exfalso; omega)

/-- Witness for C4 amended at fds 1, 99, 550 and 7. -/
theorem c4_amended_fd_routing_witness :
    write_route 1 = Route.rawSyscall SYS_write ∧
    write_route 99 = Route.ecall 708 ∧
    read_route 550 = Route.ecall 803 ∧
    pread_route 7 = Route.ecall 604 :=
  ⟨((c4_amended_fd_routing 1).1 (by omega)).1,
   (c4_amended_fd_routing 99).2.1 rfl,
   ((c4_amended_fd_routing 550).2.2.1 (by omega) (by omega)).2,
   ((c4_amended_fd_routing 7).2.2.2.2.2 (by omega)).1⟩

/-- Witness for C10 at a concrete overlapping input. -/
theorem c10_memmove_local_correct_witness :
    2 ≤ 1024 ∧
    ∃ mem', memmove (fun a => a) 1 2 2 = .localCopy mem' 1 ∧
      (∀ i, i < 2 → mem' (1 + i) = ((fun a => a) : Nat → Nat) (2 + i)) ∧
      (∀ a, a < 1 ∨ 1 + 2 ≤ a → mem' a = ((fun a => a) : Nat → Nat) a) :=
  ⟨by omega, c10_memmove_local_correct (fun a => a) 1 2 2 (by omega)⟩

/-- C1: loading the bytes produced by `save_checkpoint S` reproduces S
exactly — CPU state (pc, fcsr, the 32 integer and 32 FP registers), the
exec-context fields, the scheduler block, the next-pid and next-epoll-fd
counters, the epoll and eventfd mappings, the set of executable page
numbers, and every byte of the memory arena — when restored into a
machine with the same arena size and no pre-existing executable pages. -/
theorem c1_checkpoint_roundtrip (S T : MachineState) (hwf : WF S)
    (harena : T.arena.length = S.arena.length)
    (hTexec : ∀ p ∈ T.pages, p.2.exec = false) :
    (load_checkpoint (save_checkpoint S) T).2 = none ∧
    (load_checkpoint (save_checkpoint S) T).1.pc = S.pc ∧
    (load_checkpoint (save_checkpoint S) T).1.fcsr = S.fcsr ∧
    (load_checkpoint (save_checkpoint S) T).1.iregs = S.iregs ∧
    (load_checkpoint (save_checkpoint S) T).1.fregs = S.fregs ∧
    (load_checkpoint (save_checkpoint S) T).1.exec_ctx = S.exec_ctx ∧
    (load_checkpoint (save_checkpoint S) T).1.sched = S.sched ∧
    (load_checkpoint (save_checkpoint S) T).1.next_pid = S.next_pid ∧
    (load_checkpoint (save_checkpoint S) T).1.next_epoll_fd = S.next_epoll_fd ∧
    (load_checkpoint (save_checkpoint S) T).1.epoll_instances = S.epoll_instances ∧
    (load_checkpoint (save_checkpoint S) T).1.eventfd_counters = S.eventfd_counters ∧
    (∀ n, isExecPage (load_checkpoint (save_checkpoint S) T).1 n ↔ isExecPage S n) ∧
    (load_checkpoint (save_checkpoint S) T).1.arena = S.arena := by
  have hnd : KeysNodup S.pages := by
    obtain ⟨_, _, _, _, _, _, _, _, _, _, _, _, _, w14, _⟩ := hwf
    exact w14.2.1
  rw [load_save_checkpoint S T hwf harena]
  refine ⟨rfl, rfl, rfl, rfl, rfl, rfl, rfl, rfl, rfl, rfl, rfl, ?_, rfl⟩
  intro n
  rw [← mem_execPageNumbers S hnd n]
  simp only [isExecPage]
  constructor
  · rintro ⟨a, hl, hex⟩
    rw [lookup_foldl_applyExecAttr] at hl
    by_cases hmem : n ∈ execPageNumbers S
    · exact hmem
    · rw [if_neg hmem] at hl
      have h2 : a.exec = false := hTexec (n, a) (lookup_mem T.pages n a hl)
      rw [h2] at hex
      exact Bool.noConfusion hex
  · intro hmem
    refine ⟨⟨true, false, true⟩, ?_, rfl⟩
    rw [lookup_foldl_applyExecAttr, if_pos hmem]

/-- C7: after a completed load, every page number in the saved
executable-page list carries read+exec permission with write cleared —
whatever its live permissions were at save time (the permissions are
applied to the arena-restored machine, after the arena bytes have been
rewritten). -/
theorem c7_exec_pages_restored (S T : MachineState) (hwf : WF S)
    (harena : T.arena.length = S.arena.length) :
    (load_checkpoint (save_checkpoint S) T).2 = none ∧
    ∀ n ∈ execPageNumbers S,
      (load_checkpoint (save_checkpoint S) T).1.pages.lookup n
        = some ⟨true, false, true⟩ := by
  rw [load_save_checkpoint S T hwf harena]
  refine ⟨rfl, ?_⟩
  intro n hn
  rw [lookup_foldl_applyExecAttr, if_pos hn]

/-- C8: an all-zero arena encodes to a chunk stream holding only the
sentinel record, and the load side zeroes the whole destination arena
before applying chunks, so decoding that stream leaves every destination
byte zero whatever the destination held before. -/
theorem c8_all_zero_arena (m : MachineState) (hz : ∀ b ∈ m.arena, b = 0)
    (dest : List Nat) :
    saveArena m = sentinelBytes ∧
    (loadArenaLoop (saveArena m) (List.replicate dest.length 0)).1
      = List.replicate dest.length 0 ∧
    (∀ b ∈ (loadArenaLoop (saveArena m) (List.replicate dest.length 0)).1, b = 0) := by
  have hs : saveArena m = sentinelBytes := by
    rw [saveArena, chunkRecords_allZero m.arena hz]
    rfl
  have hd : loadArenaLoop sentinelBytes (List.replicate dest.length 0)
      = (List.replicate dest.length 0, [], .ok) := by
    have h0 := loadArenaLoopF_records [] sentinelBytes.length
      (List.replicate dest.length 0) (by simp) (by simp)
    simp only [List.flatMap_nil, List.nil_append, List.filter_nil] at h0
    rw [loadArenaLoop]
    exact h0
  refine ⟨hs, by rw [hs, hd], ?_⟩
  rw [hs, hd]
  intro b hb
  exact List.eq_of_mem_replicate hb



/-- C9: when the arena size is not a multiple of the 64 KiB chunk length
and the trailing partial window holds a non-zero byte, `save_checkpoint`
emits that tail exactly once, as the final data chunk before the
sentinel, at offset `(size / CHUNK_SIZE) * CHUNK_SIZE` (the last
chunk-aligned boundary) with exactly the trailing bytes as payload. -/
theorem c9_tail_chunk_emitted_once (m : MachineState)
    (h1 : m.arena.length % CHUNK_SIZE ≠ 0)
    (h2 : ∃ b ∈ m.arena.drop ((m.arena.length / CHUNK_SIZE) * CHUNK_SIZE), b ≠ 0) :
    chunkRecords m.arena
      = fullChunks m.arena 0 (m.arena.length / CHUNK_SIZE)
        ++ [((m.arena.length / CHUNK_SIZE) * CHUNK_SIZE,
             m.arena.drop ((m.arena.length / CHUNK_SIZE) * CHUNK_SIZE))] ∧
    (m.arena.drop ((m.arena.length / CHUNK_SIZE) * CHUNK_SIZE)).length
      = m.arena.length - (m.arena.length / CHUNK_SIZE) * CHUNK_SIZE ∧
    (chunkRecords m.arena).countP
      (fun r => r.1 == (m.arena.length / CHUNK_SIZE) * CHUNK_SIZE) = 1 ∧
    saveArena m
      = (fullChunks m.arena 0 (m.arena.length / CHUNK_SIZE)).flatMap serializeRecord
        ++ (serializeRecord ((m.arena.length / CHUNK_SIZE) * CHUNK_SIZE,
              m.arena.drop ((m.arena.length / CHUNK_SIZE) * CHUNK_SIZE))
            ++ sentinelBytes) := by
  have hC : (0 : Nat) < CHUNK_SIZE := by norm_num [CHUNK_SIZE]
  have hdm := Nat.div_add_mod' m.arena.length CHUNK_SIZE
  have hmod : 0 < m.arena.length % CHUNK_SIZE := Nat.pos_of_ne_zero h1
  have hlt : (m.arena.length / CHUNK_SIZE) * CHUNK_SIZE < m.arena.length := by
    omega
  have hnz : ¬((m.arena.drop ((m.arena.length / CHUNK_SIZE) * CHUNK_SIZE)).all (· == 0) = true) := by
    intro hall
    obtain ⟨b, hb, hbne⟩ := h2
    exact hbne (by simpa using List.all_eq_true.mp hall b hb)
  have htc : tailChunk m.arena
      = [((m.arena.length / CHUNK_SIZE) * CHUNK_SIZE,
          m.arena.drop ((m.arena.length / CHUNK_SIZE) * CHUNK_SIZE))] := by
    rw [tailChunk]
    rw [if_pos ⟨hlt, hnz⟩]
  have hcr : chunkRecords m.arena
      = fullChunks m.arena 0 (m.arena.length / CHUNK_SIZE)
        ++ [((m.arena.length / CHUNK_SIZE) * CHUNK_SIZE,
             m.arena.drop ((m.arena.length / CHUNK_SIZE) * CHUNK_SIZE))] := by
    rw [chunkRecords, htc]
  have hfulloff : ∀ r ∈ fullChunks m.arena 0 (m.arena.length / CHUNK_SIZE),
      r.1 < (m.arena.length / CHUNK_SIZE) * CHUNK_SIZE := by
    intro r hr
    obtain ⟨k, hk, hoff, _⟩ := fullChunks_mem m.arena (m.arena.length / CHUNK_SIZE) 0 r hr
    rw [hoff]
    simp only [Nat.zero_add]
    exact Nat.mul_lt_mul_of_lt_of_le hk (le_refl _) hC
  refine ⟨hcr, by simp, ?_, ?_⟩
  · rw [hcr, List.countP_append]
    have hz : (fullChunks m.arena 0 (m.arena.length / CHUNK_SIZE)).countP
        (fun r => r.1 == (m.arena.length / CHUNK_SIZE) * CHUNK_SIZE) = 0 := by
      rw [List.countP_eq_zero]
      intro r hr
      have := hfulloff r hr
      simp
      omega
    rw [hz]
    simp
  · rw [saveArena, hcr]
    simp [List.append_assoc]

set_option maxRecDepth 4000 in
/-- C6: the chunk loop's bound test is computed in wrapping uint64
arithmetic, so a record whose true `offset + length` far exceeds the
arena size can still pass it.  At the failing input — a record with
offset `2^64 - 20` and a 30-byte payload against a 20-byte arena — the
wrapped sum is `10 ≤ 20`, the bound check passes (`recInRange` is true),
the record is not skipped, and the loop reaches the unchecked
`read_into(arena + guest_addr, len)`, an out-of-bounds host write, with
no diagnostic.  This contradicts the claim (and spec §4.1/§7) that every
record whose offset plus length exceeds the arena size is rejected and
skipped. -/
theorem c6_wrap_bound_check_bug :
    recInRange 20 (2 ^ 64 - 20, List.replicate 30 1) = true ∧
    2 ^ 64 - 20 + (List.replicate 30 (1 : Nat)).length > 20 ∧
    (loadArenaLoop
        (serializeRecord (2 ^ 64 - 20, List.replicate 30 1) ++ sentinelBytes)
        (List.replicate 20 0)).2.2 = ArenaLoopOutcome.oobWrite := by
  decide

/-- C5: a blob whose magic tag or version field is wrong makes
`load_checkpoint` fail with the corresponding format error, and the
machine is returned exactly in its prior state — header validation runs
before any mutation. -/
theorem c5_bad_header_leaves_state (blob : List Nat) (m : MachineState)
    (hlen : 12 ≤ blob.length)
    (hbad : blob.take 8 ≠ MAGIC ∨ decodeLE ((blob.drop 8).take 4) ≠ VERSION) :
    (load_checkpoint blob m).1 = m ∧
    ((load_checkpoint blob m).2 = some LoadErr.badMagic ∨
     (load_checkpoint blob m).2 = some LoadErr.badVersion) := by
  have h8 : readBytes 8 blob = some (blob.take 8, blob.drop 8) := by
    rw [readBytes, if_pos (by omega)]
  have h4 : readNat 4 (blob.drop 8)
      = some (decodeLE ((blob.drop 8).take 4), (blob.drop 8).drop 4) := by
    rw [readNat, readBytes, if_pos (by simp; omega)]
  by_cases hm : blob.take 8 = MAGIC
  · have hv : decodeLE ((blob.drop 8).take 4) ≠ VERSION := by
      rcases hbad with h | h
      · exact absurd hm h
      · exact h
    refine ⟨?_, Or.inr ?_⟩ <;>
      simp [load_checkpoint, loadHeader, h8, h4, hm, hv]
  · refine ⟨?_, Or.inl ?_⟩ <;>
      simp [load_checkpoint, loadHeader, h8, hm]



theorem cS_WF : WF cS := by
  unfold WF ExecCtxWF EpollWF EventfdWF PagesWF KeysNodup
  decide



set_option maxRecDepth 10000 in
/-- C2 counterexample: a checkpoint stream that ends at a record boundary
before the arena sentinel loads successfully (no error), so exhaustion
before the sentinel is not fatal; and a stream truncated inside the
scheduler section fails with EOF but leaves the live scheduler block
already overwritten, so partial state is not discarded and live state is
mutated during parsing. -/
theorem c2_counterexample :
    (load_checkpoint cTruncBlob cT).2 = none ∧
    (load_checkpoint cSchedTruncBlob cT).2 = some LoadErr.eof ∧
    (load_checkpoint cSchedTruncBlob cT).1.sched = cS.sched ∧
    ¬ cT.sched = cS.sched := by
  decide

/-- C2 amended: a stream that ends exactly at a record boundary in the
arena-chunk section silently terminates the chunk loop and the load
completes successfully; truncation that cuts the header itself is fatal
with nothing mutated.  (Scheduler, counters and mappings are written to
live state as they parse, so later EOFs keep partial mutations, as the
counterexample shows.) -/
theorem c2_amended_truncation (S T : MachineState) (hwf : WF S) :
    (load_checkpoint (saveHeader ++ (saveCpu S ++ (saveMemExec S ++ (saveSched S ++
        (saveEpoll S ++ (saveEventfd S ++ saveExecPages S)))))) T).2 = none ∧
    (∀ (blob : List Nat) (m' : MachineState), blob.length < 8 →
      load_checkpoint blob m' = (m', some LoadErr.eof)) := by
  constructor
  · obtain ⟨w1, w2, w3, w4, w5, w6, w7, w8, w9, w10, w11, w12, w13, w14, w15⟩ := hwf
    have HF : ∀ r, loadFixed (saveCpu S ++ (saveMemExec S ++ r)) = some (stagedOf S, r) :=
      fun r => loadFixed_save S r w1 w2 w3 w4 w5 w6 w7 w8
    have HS : ∀ (r : List Nat) (t : MachineState), loadSched (saveSched S ++ r) t
        = ({ t with
              sched := S.sched
              next_pid := S.next_pid
              next_epoll_fd := S.next_epoll_fd }, some r) :=
      fun r t => loadSched_save S t r w9 w10 w11
    have HE : ∀ (r : List Nat) (t : MachineState), loadEpoll (saveEpoll S ++ r) t
        = ({ t with epoll_instances := S.epoll_instances }, some r) :=
      fun r t => loadEpoll_save S t r w12
    have HV : ∀ (r : List Nat) (t : MachineState), loadEventfd (saveEventfd S ++ r) t
        = ({ t with eventfd_counters := S.eventfd_counters }, some r) :=
      fun r t => loadEventfd_save S t r w13
    obtain ⟨p1, p2, p3⟩ := w14
    have hcount : (execPageNumbers S).length < 2 ^ 64 := by
      have : (execPageNumbers S).length ≤ S.pages.length := by
        simp only [execPageNumbers]
        calc ((S.pages.filter (fun p => p.2.exec)).map (fun p => p.1)).length
            = (S.pages.filter (fun p => p.2.exec)).length := by simp
        _ ≤ S.pages.length := List.length_filter_le _ _
      omega
    have HP : ∀ r, readNat 8 (encodeLE 8 (execPageNumbers S).length ++ r)
        = some ((execPageNumbers S).length, r) :=
      fun r => readNat_append 8 _ r (by norm_num; omega)
    have HV3 : readVals 8 (execPageNumbers S).length
        ((execPageNumbers S).flatMap (encodeLE 8))
        = some (execPageNumbers S, []) := by
      have := readVals_append 8 (execPageNumbers S) []
        (by norm_num; exact fun v hv => execPageNumbers_bound S p3 v hv)
      simpa using this
    have HA0 : ∀ a : List Nat, loadArenaLoop [] a = (a, [], .ok) := fun a => rfl
    simp only [load_checkpoint, loadHeader_save, HF, HS, HE, HV,
      saveExecPages, List.append_assoc, HP, HV3, HA0]
  · intro blob m' hlen
    have h0 : readBytes 8 blob = none := by
      rw [readBytes, if_neg (by omega)]
    simp [load_checkpoint, loadHeader, h0]

/-- Witness for C2's amended claim at the concrete state `cS`. -/
theorem c2_amended_truncation_witness :
    (load_checkpoint (saveHeader ++ (saveCpu cS ++ (saveMemExec cS ++ (saveSched cS ++
        (saveEpoll cS ++ (saveEventfd cS ++ saveExecPages cS)))))) cT).2 = none ∧
    (∀ (blob : List Nat) (m' : MachineState), blob.length < 8 →
      load_checkpoint blob m' = (m', some LoadErr.eof)) :=
  c2_amended_truncation cS cT cS_WF



/-- Witness for C1 at the concrete states `cS`, `cT`. -/
theorem c1_checkpoint_roundtrip_witness :
    WF cS ∧ cT.arena.length = cS.arena.length ∧
    (load_checkpoint (save_checkpoint cS) cT).2 = none ∧
    (load_checkpoint (save_checkpoint cS) cT).1.arena = cS.arena :=
  ⟨cS_WF, by decide,
   (c1_checkpoint_roundtrip cS cT cS_WF (by decide) (by decide)).1,
   (c1_checkpoint_roundtrip cS cT cS_WF (by decide)
     (by decide)).2.2.2.2.2.2.2.2.2.2.2.2⟩

/-- Witness for C5: an all-zero 20-byte blob is rejected with the magic
error and the machine is unchanged. -/
theorem c5_bad_header_leaves_state_witness :
    (load_checkpoint (List.replicate 20 0) cT).1 = cT ∧
    ((load_checkpoint (List.replicate 20 0) cT).2 = some LoadErr.badMagic ∨
     (load_checkpoint (List.replicate 20 0) cT).2 = some LoadErr.badVersion) :=
  c5_bad_header_leaves_state (List.replicate 20 0) cT (by decide)
    (Or.inl (by decide))

/-- Witness for C7 at `cS`, `cT`: page 100 was writable and executable at
save time and comes back read+exec with write cleared. -/
theorem c7_exec_pages_restored_witness :
    (load_checkpoint (save_checkpoint cS) cT).2 = none ∧
    ∀ n ∈ execPageNumbers cS,
      (load_checkpoint (save_checkpoint cS) cT).1.pages.lookup n
        = some ⟨true, false, true⟩ :=
  c7_exec_pages_restored cS cT cS_WF (by decide)

/-- Witness for C8 with a 3-byte all-zero arena and an all-nines
destination. -/
theorem c8_all_zero_arena_witness :
    saveArena { cS with arena := [0, 0, 0] } = sentinelBytes ∧
    (loadArenaLoop (saveArena { cS with arena := [0, 0, 0] })
        (List.replicate ([9, 9, 9] : List Nat).length 0)).1
      = List.replicate ([9, 9, 9] : List Nat).length 0 ∧
    (∀ b ∈ (loadArenaLoop (saveArena { cS with arena := [0, 0, 0] })
        (List.replicate ([9, 9, 9] : List Nat).length 0)).1, b = 0) :=
  c8_all_zero_arena { cS with arena := [0, 0, 0] } (by decide) [9, 9, 9]

/-- Witness for C9 at `cS`: its 4-byte arena is a single non-zero
partial window, emitted exactly once. -/
theorem c9_tail_chunk_emitted_once_witness :
    cS.arena.length % CHUNK_SIZE ≠ 0 ∧
    (chunkRecords cS.arena).countP
      (fun r => r.1 == (cS.arena.length / CHUNK_SIZE) * CHUNK_SIZE) = 1 :=
  ⟨by decide,
   (c9_tail_chunk_emitted_once cS (by decide) (by decide)).2.2.1⟩

end AEON
